import Mathlib

/-!
# A verification model of the proteus proto-schema pipeline

This file embeds, in Lean, the parts of the src-d/proteus Go code base that
turn scanned Go packages into protobuf schema packages: the scanner IR types
(`scanner/package.go`), enum promotion (`scanner/scanner.go`), the resolver
(`resolver/resolver.go`), the Go-to-protobuf transformer
(`protobuf/transform.go`, `protobuf/mapping.go`), the protobuf package model
(`protobuf/protobuf.go`) and the option emission order of the schema emitter
(`protobuf/gen.go`).  Go struct mutation is modelled by explicit state
passing; Go `nil` interface values of the scanner `Type` interface are
modelled by a dedicated `snil` constructor; warnings issued through the
global `report` package are returned as lists of strings.  Theorems about
each component follow the definitions.
-/

/-! ## String helpers (protobuf/transform.go)

Character predicates are modelled on the ASCII range, which is the range the
Go code exercises for identifiers; `unicode.IsUpper`, `unicode.ToLower`,
`unicode.IsLetter` and `unicode.IsNumber` agree with the Lean `Char`
functions there.  Theorems that depend on full-Unicode behaviour restrict
their statements to ASCII inputs. -/

/-- Model of Go `unicode.IsLetter` on the ASCII range. -/
def unicodeIsLetter (c : Char) : Bool := c.isAlpha

/-- Model of Go `unicode.IsNumber` on the ASCII range. -/
def unicodeIsNumber (c : Char) : Bool := c.isDigit

/-- The rune mapping function passed to `strings.Map` inside
`toProtobufPkg` (protobuf/transform.go): `/` and `.` become `.`,
letters and numbers are kept, everything else becomes a space. -/
def toProtobufPkgRune (r : Char) : Char :=
  if r = '/' ∨ r = '.' then '.'
  else if unicodeIsLetter r || unicodeIsNumber r then r
  else ' '

/-- Membership of a character in the Unicode combining-mark class Mn,
restricted to the combining diacritical marks block; on ASCII input it is
constantly `false`, which is the only case the theorems below rely on. -/
def isCombiningMark (c : Char) : Bool :=
  0x300 ≤ c.toNat ∧ c.toNat ≤ 0x36F

/-- Model of the `golang.org/x/text` transform chain
`norm.NFD, runes.Remove(runes.In(unicode.Mn)), norm.NFC` used by
`toProtobufPkg`: combining marks are removed.  The model does not perform
canonical decomposition, so it is exact only on inputs without decomposable
characters (in particular on all ASCII strings, where it is the identity). -/
def stripCombiningMarks (s : String) : String :=
  String.mk (s.data.filter (fun c => ¬ isCombiningMark c))

/-- `toProtobufPkg` (protobuf/transform.go): map runes with
`toProtobufPkgRune`, delete the spaces produced for unsupported runes
(`strings.Replace(pkg, " ", "", -1)`), then strip combining marks. -/
def toProtobufPkg (path : String) : String :=
  let pkg := String.mk (path.data.map toProtobufPkgRune)
  let pkg := String.mk (pkg.data.filter (fun c => c ≠ ' '))
  stripCombiningMarks pkg

/-- Recursion core of `toLowerSnakeCase`: `first` tells whether we are at
index 0, `lastUpper` whether the previous rune was upper case. -/
def toLowerSnakeCaseAux (first lastUpper : Bool) : List Char → List Char
  | [] => []
  | c :: cs =>
    let rest := (c.toLower) :: toLowerSnakeCaseAux false c.isUpper cs
    if c.isUpper ∧ ¬ first ∧ ¬ lastUpper then '_' :: rest else rest

/-- `toLowerSnakeCase` (protobuf/transform.go): insert `_` before an upper
case rune that is not at position 0 and does not follow another upper case
rune, and lower-case every rune. -/
def toLowerSnakeCase (s : String) : String :=
  String.mk (toLowerSnakeCaseAux true false s.data)

/-- `toUpperSnakeCase` (protobuf/transform.go):
`strings.ToUpper(toLowerSnakeCase(s))`. -/
def toUpperSnakeCase (s : String) : String :=
  String.mk ((toLowerSnakeCase s).data.map Char.toUpper)

/-- `capitalize` (protobuf/transform.go): upper-case the first byte.  The Go
code indexes `s[0:1]` and would panic on the empty string; the callers only
pass the literals `"arg"` and `"result"`, and the model returns `""`. -/
def capitalize (s : String) : String :=
  match s.data with
  | [] => ""
  | c :: cs => String.mk (c.toUpper :: cs)

/-- ASCII lower-case test of the external gogo/protobuf generator. -/
def isASCIILower (c : Char) : Bool := 'a' ≤ c ∧ c ≤ 'z'

/-- ASCII digit test of the external gogo/protobuf generator. -/
def isASCIIDigit (c : Char) : Bool := '0' ≤ c ∧ c ≤ '9'

/-- Loop body of the external gogo/protobuf `generator.CamelCase` used by
`defaultOptionsForStructField`: drop an interior `_` followed by a lower
case letter, keep digits, upper-case the first letter of each word and
copy the lower case run that follows it.  The Go loop consumes each lower
case run with an inner loop; here the flag `inRun` carries "the previous
character was emitted as part of a word", which yields the same output
character by character. -/
def camelCaseAux (inRun : Bool) : List Char → List Char
  | [] => []
  | c :: cs =>
    if inRun && isASCIILower c then
      c :: camelCaseAux true cs
    else if c == '_' && (match cs with | d :: _ => isASCIILower d | [] => false) then
      camelCaseAux false cs
    else if isASCIIDigit c then
      c :: camelCaseAux false cs
    else
      (if isASCIILower c then c.toUpper else c) :: camelCaseAux true cs

/-- Model of the external `generator.CamelCase` (gogo/protobuf
protoc-gen-gogo/generator), the function the transformer uses to decide
whether a `(gogoproto.customname)` option is needed: a leading `_` becomes
`X`, then `camelCaseAux` runs over the remaining characters. -/
def generatorCamelCase (s : String) : String :=
  match s.data with
  | [] => ""
  | c :: cs =>
    if c = '_' then String.mk ('X' :: camelCaseAux false cs)
    else String.mk (camelCaseAux false (c :: cs))

/-! ## Scanner IR (scanner/package.go)

The Go `scanner.Type` interface is a tagged variant `Basic`, `Named`,
`Alias`, `Map`; every concrete type embeds a `BaseType` carrying the
`Repeated` and `Nullable` flags, except `Alias`, which is built by
`NewAlias` without a `BaseType` and overrides `IsRepeated`/`IsNullable` by
delegation.  The extra constructor `snil` models a Go `nil` interface value
of type `scanner.Type`, which the code stores in map keys/values and
returns from failed resolutions. -/

inductive SType : Type where
  /-- A Go `nil` value of the `scanner.Type` interface. -/
  | snil : SType
  /-- `scanner.Basic`: a primitive identified by its name. -/
  | basic (repeated nullable : Bool) (name : String)
  /-- `scanner.Named`: a named non-primitive type on some package. -/
  | named (repeated nullable : Bool) (path name : String)
  /-- `scanner.Alias`: a declaration of a type as another type, built by the
  resolver via `scanner.NewAlias`. -/
  | salias (typ underlying : SType)
  /-- `scanner.Map`: a map with a key and a value type. -/
  | smap (repeated nullable : Bool) (key value : SType)
deriving Repr, DecidableEq

namespace SType

/-- `IsRepeated`: `BaseType` flag, except for `Alias` which is repeated if
either side is.  `snil` is unreachable in the Go code (method call on nil). -/
def isRepeated : SType → Bool
  | snil => false
  | basic r _ _ => r
  | named r _ _ _ => r
  | salias t u => t.isRepeated || u.isRepeated
  | smap r _ _ _ => r

/-- `IsNullable`: `Basic` overrides it to always `true` ("Basic types though
cannot be nullable, they are considered so in protobuf"); `Alias` is
nullable if either side is; `Named` and `Map` read the `BaseType` flag. -/
def isNullable : SType → Bool
  | snil => false
  | basic _ _ _ => true
  | named _ n _ _ => n
  | salias t u => t.isNullable || u.isNullable
  | smap _ n _ _ => n

/-- `String()`: `Named` renders as `path.Name` (bare `Name` when `path` is
empty), `Basic` as its name, `Alias` as `type <decl> <underlying>`, `Map` as
`map[k]v`. -/
def str : SType → String
  | snil => ""
  | basic _ _ n => n
  | named _ _ p n => if p = "" then n else p ++ "." ++ n
  | salias t u => "type " ++ t.str ++ " " ++ u.str
  | smap _ _ k v => "map[" ++ k.str ++ "]" ++ v.str

/-- `TypeString()`: like `String()` but an `Alias` renders as its declared
side only. -/
def typeStr : SType → String
  | snil => ""
  | basic _ _ n => n
  | named _ _ p n => if p = "" then n else p ++ "." ++ n
  | salias t _ => t.typeStr
  | smap r nu k v => (smap r nu k v).str

end SType

/-- `scanner.Field`: name and type of a struct field (with its docs). -/
structure SField where
  docs : List String
  name : String
  ftype : SType
deriving Repr, DecidableEq

/-- `scanner.Struct`: a Go struct with generation flag, name, fields and
stringer flag. -/
structure SStruct where
  docs : List String
  generate : Bool
  name : String
  fields : List SField
  isStringer : Bool
deriving Repr, DecidableEq

/-- `scanner.EnumValue`: a possible value of an enum. -/
structure SEnumValue where
  docs : List String
  name : String
deriving Repr, DecidableEq

/-- `scanner.Enum`: a list of possible values. -/
structure SEnum where
  docs : List String
  name : String
  values : List SEnumValue
  isStringer : Bool
deriving Repr, DecidableEq

/-- `scanner.Func`: a function or method; `receiver` is `none` for plain
functions (Go: nil `Receiver` field). -/
structure SFunc where
  docs : List String
  name : String
  receiver : Option SType
  input : List SType
  output : List SType
  isVariadic : Bool
deriving Repr, DecidableEq

/-- `scanner.Package`: one scanned Go package. -/
structure SPackage where
  resolved : Bool
  path : String
  name : String
  structs : List SStruct
  enums : List SEnum
  funcs : List SFunc
  /-- `Aliases map[string]Type`, keyed by qualified name; modelled as an
  association list with unique keys. -/
  aliases : List (String × SType)
deriving Repr, DecidableEq

/-! ## Enum promotion (scanner/scanner.go)

`newEnum` collects, for each candidate value name, the constant object
found by the AST walk (`ctx.consts`, whose `Data` holds the iota ordinal),
sorts the pairs stably by ordinal (`sort.Stable` with `Less(i,j) =
pos_i < pos_j`) and emits the enum values in that order. -/

/-- The part of the scanner `context` that `newEnum` reads: the constant
objects indexed by name, carrying their iota ordinal (`obj.Data.(int)`),
and the declaration docs indexed by name (`trySetDocs`). -/
structure ScanContext where
  consts : List (String × Nat)
  docs : List (String × List String)
deriving Repr, DecidableEq

/-- `ctx.trySetDocs` as a lookup: the doc lines recorded for a name. -/
def ScanContext.docsFor (ctx : ScanContext) (name : String) : List String :=
  (ctx.docs.lookup name).getD []

/-- The `(name, ordinal)` pairs `newEnum` builds from `vals`: only names
that are constants contribute, with their iota ordinal. -/
def enumPairs (ctx : ScanContext) (vals : List String) : List (String × Nat) :=
  vals.filterMap (fun v => (ctx.consts.lookup v).map (fun pos => (v, pos)))

/-- Go `sort.Stable(values)` with `enumValues.Less(i, j) = pos_i < pos_j`:
a stable ascending sort by ordinal, modelled with a stable insertion
sort. -/
def sortEnumPairs (l : List (String × Nat)) : List (String × Nat) :=
  List.insertionSort (fun a b => a.2 ≤ b.2) l

/-- `newEnum` (scanner/scanner.go): build the `(name, ordinal)` pairs, sort
them stably by ordinal, and emit the enum with its values in that order,
attaching docs via `trySetDocs`. -/
def newEnum (ctx : ScanContext) (name : String) (vals : List String)
    (hasStringMethod : Bool) : SEnum :=
  { docs := ctx.docsFor name
    name := name
    isStringer := hasStringMethod
    values := (sortEnumPairs (enumPairs ctx vals)).map
      (fun p => { docs := ctx.docsFor p.1, name := p.1 }) }

/-! ## Resolver (resolver/resolver.go)

The resolver checks types globally, replaces aliased named types by
`Alias` nodes, drops fields and functions with unresolvable types, and
marks the structs it reaches.  `packagesInfo` mutation (`markStruct`) is
modelled by returning the updated info; `report.Warn` calls are returned as
a list of warning strings. -/

/-- `packagesInfo` (resolver/resolver.go): aliases of all packages minus
the enums, the set of scanned package paths, and the map from qualified
struct name to its mark bit (seeded from `Generate`). -/
structure PackagesInfo where
  aliases : List (String × SType)
  packages : List String
  structs : List (String × Bool)
deriving Repr, DecidableEq

namespace PackagesInfo

/-- `aliasOf`: the alias recorded for a named type, if any. -/
def aliasOf (i : PackagesInfo) (named : SType) : Option SType :=
  i.aliases.lookup named.str

/-- `isStruct`: whether a qualified name is a known struct. -/
def isStruct (i : PackagesInfo) (name : String) : Bool :=
  (i.structs.lookup name).isSome

/-- `markStruct`: set the mark bit of a struct to `true`. -/
def markStruct (i : PackagesInfo) (name : String) : PackagesInfo :=
  { i with structs := i.structs.map (fun p => if p.1 = name then (p.1, true) else p) }

/-- `isStructMarked`: read the mark bit. -/
def isStructMarked (i : PackagesInfo) (name : String) : Bool :=
  (i.structs.lookup name).getD false

/-- `hasPackage`: whether a path was scanned. -/
def hasPackage (i : PackagesInfo) (path : String) : Bool :=
  i.packages.contains path

end PackagesInfo

/-- `packagesEnums` (resolver/resolver.go): the qualified names of all enums
in all packages. -/
def packagesEnums (pkgs : List SPackage) : List String :=
  pkgs.flatMap (fun p => p.enums.map (fun e => p.path ++ "." ++ e.name))

/-- `getPackagesInfo` (resolver/resolver.go): collect the paths, the aliases
that are not enums, and the struct mark bits seeded from `Generate`. -/
def getPackagesInfo (pkgs : List SPackage) : PackagesInfo :=
  let enums := packagesEnums pkgs
  { aliases := pkgs.flatMap (fun p => p.aliases.filter (fun a => ¬ enums.contains a.1))
    packages := pkgs.map (·.path)
    structs := pkgs.flatMap (fun p => p.structs.map (fun s => (p.path ++ "." ++ s.name, s.generate))) }

/-- `Resolver`: carries the allow-list of custom types. -/
structure Resolver where
  customTypes : List String
deriving Repr, DecidableEq

/-- `resolver.New()`: the default custom types `time.Time`, `time.Duration`
and `error`. -/
def Resolver.new : Resolver :=
  { customTypes := ["time.Time", "time.Duration", "error"] }

/-- `isCustomType`: membership of the named type's string in the custom
type allow-list. -/
def Resolver.isCustomType (r : Resolver) (t : SType) : Bool :=
  r.customTypes.contains t.str

/-- Warning emitted for a type from an unscanned package. -/
def warnUnknownPackage (name path : String) : String :=
  "type \x22" ++ name ++ "\x22 of package " ++ path ++
    " will be ignored because it was not present on the scan path"

/-- Warning emitted for an alias of a repeated type. -/
def warnRepeatedAlias (name path aliasStr : String) : String :=
  "type \x22" ++ name ++ "\x22 of package " ++ path ++ " is an alias for " ++
    aliasStr ++ " that is marked as repeated. Alias for repeated fields " ++
    "are not currently supported, this field will be ignored."

/-- `resolveType` (resolver/resolver.go): custom types pass through;
named types of unscanned packages are dropped with a warning; a named type
with an alias becomes an `Alias` node unless the alias is repeated, which
is unsupported and dropped with a warning; known structs are marked; maps
recurse on key and value (keeping the map even when a side resolves to
nil, exactly as the Go code mutates `t.Key`/`t.Value` in place); a Go nil
and an `Alias` input fall through the type switch and resolve to nil. -/
def Resolver.resolveType (r : Resolver) (info : PackagesInfo) :
    SType → PackagesInfo × List String × Option SType
  | SType.named rep nu path name =>
    let t := SType.named rep nu path name
    if r.isCustomType t then (info, [], some t)
    else if ¬ info.hasPackage path then
      (info, [warnUnknownPackage name path], none)
    else
      match info.aliasOf t with
      | some al =>
        if al.isRepeated then
          (info, [warnRepeatedAlias name path al.str], none)
        else
          (info, [], some (SType.salias t al))
      | none =>
        if info.isStruct t.str then (info.markStruct t.str, [], some t)
        else (info, [], some t)
  | SType.basic rep nu name => (info, [], some (SType.basic rep nu name))
  | SType.smap rep nu key value =>
    let (i1, w1, k) := r.resolveType info key
    let (i2, w2, v) := r.resolveType i1 value
    (i2, w1 ++ w2, some (SType.smap rep nu (k.getD SType.snil) (v.getD SType.snil)))
  | SType.salias _ _ => (info, [], none)
  | SType.snil => (info, [], none)

/-- `resolveStruct` (resolver/resolver.go): resolve every field's type,
keeping only the fields whose type resolves. -/
def Resolver.resolveStructFields (r : Resolver) (info : PackagesInfo) :
    List SField → PackagesInfo × List String × List SField
  | [] => (info, [], [])
  | f :: fs =>
    let (i1, w1, t?) := r.resolveType info f.ftype
    let (i2, w2, rest) := r.resolveStructFields i1 fs
    match t? with
    | some t => (i2, w1 ++ w2, { f with ftype := t } :: rest)
    | none => (i2, w1 ++ w2, rest)

/-- `resolveStruct` wrapper returning the updated struct. -/
def Resolver.resolveStruct (r : Resolver) (info : PackagesInfo) (s : SStruct) :
    PackagesInfo × List String × SStruct :=
  let (i, w, fields) := r.resolveStructFields info s.fields
  (i, w, { s with fields := fields })

/-- `resolveTypeList` (resolver/resolver.go): resolve each type; if any
resolves to nil the whole list is nil. -/
def Resolver.resolveTypeList (r : Resolver) (info : PackagesInfo) :
    List SType → PackagesInfo × List String × Option (List SType)
  | [] => (info, [], some [])
  | t :: ts =>
    let (i1, w1, t?) := r.resolveType info t
    match t? with
    | none => (i1, w1, none)
    | some t' =>
      let (i2, w2, rest?) := r.resolveTypeList i1 ts
      match rest? with
      | none => (i2, w1 ++ w2, none)
      | some rest => (i2, w1 ++ w2, some (t' :: rest))

/-! ## Protobuf model (protobuf/protobuf.go, protobuf/mapping.go)

Go `Options` is a `map[string]OptionValue`; it is modelled as an
association list with unique keys where assignment replaces an existing
binding in place or appends a new one.  The `Message.Reserved` collection
behaves as a set of positions (duplicate reservations are not added
twice). -/

/-- `OptionValue`: a literal value (`LiteralValue`) or a quoted string
value (`StringValue`). -/
inductive OptionValue where
  | literal (s : String)
  | quoted (s : String)
deriving Repr, DecidableEq

/-- Rendering of an option value: literals pass through, string values are
quoted (Go uses `%q`; escaping of special characters is not modelled). -/
def OptionValue.render : OptionValue → String
  | literal s => s
  | quoted s => "\x22" ++ s ++ "\x22"

/-- `Options`: the option map of a package, message, field, enum or enum
value. -/
abbrev Options := List (String × OptionValue)

namespace Options

/-- Go map assignment `o[k] = v`: replace the binding if the key is
present, append otherwise. -/
def set (o : Options) (k : String) (v : OptionValue) : Options :=
  if o.any (fun p => p.1 == k)
  then o.map (fun p => if p.1 == k then (k, v) else p)
  else o ++ [(k, v)]

/-- Go map read `o[k]`. -/
def getVal : Options → String → Option OptionValue
  | [], _ => none
  | p :: ps, k => if p.1 = k then some p.2 else getVal ps k

/-- The keys of an option map. -/
def keys (o : Options) : List String :=
  o.map Prod.fst

end Options

/-- The empty option map. -/
def noOptions : Options := []

/-- A decorator attached to a type mapping.  In Go a decorator is a closure
`func(*Package, *Message, *Field)`; the built-in mappings only ever mutate
the field's options, and the three closure shapes that occur in
`protobuf/mapping.go` are modelled as data. -/
inductive Decorator where
  /-- `CastToBasicType(basic)`: set `(gogoproto.casttype)` to `basic`. -/
  | castToBasic (basic : String)
  /-- The `time.Time` decorator: set `(gogoproto.stdtime) = true` and
  `(gogoproto.nullable) = false`. -/
  | stdTime
  /-- The `time.Duration` decorator: set `(gogoproto.stdduration) = true`
  and `(gogoproto.nullable) = false`. -/
  | stdDuration
deriving Repr, DecidableEq

/-- Run one decorator on a field's options. -/
def Decorator.run (d : Decorator) (o : Options) : Options :=
  match d with
  | castToBasic b => o.set "(gogoproto.casttype)" (OptionValue.quoted b)
  | stdTime =>
    (o.set "(gogoproto.stdtime)" (OptionValue.literal "true")).set
      "(gogoproto.nullable)" (OptionValue.literal "false")
  | stdDuration =>
    (o.set "(gogoproto.stdduration)" (OptionValue.literal "true")).set
      "(gogoproto.nullable)" (OptionValue.literal "false")

/-- Run a decorator list in order (`Decorators.Run`). -/
def runDecorators (ds : List Decorator) (o : Options) : Options :=
  ds.foldl (fun acc d => d.run acc) o

/-- `ProtoType` (protobuf/mapping.go): a protobuf type a Go type maps to,
with its package, import file, go import, decorators and warning format.
The Go field `Import` is named `imp` here (`import` is reserved in Lean). -/
structure ProtoType where
  pkg : String
  basic : Bool
  name : String
  imp : String
  goImport : String
  decorators : List Decorator
  warn : String
deriving Repr, DecidableEq

/-- `TypeMappings`: a map from Go type names (possibly package qualified)
to proto types. -/
abbrev TypeMappings := List (String × ProtoType)

/-- Lookup in a type mapping table. -/
def TypeMappings.findName (m : TypeMappings) (name : String) : Option ProtoType :=
  m.lookup name

/-- A `ProtoType` without package, import, decorators or warning. -/
def plainProto (name : String) (basic : Bool) : ProtoType :=
  { pkg := "", basic := basic, name := name, imp := "", goImport := ""
    decorators := [], warn := "" }

/-- A widened basic mapping with a cast-type decorator and a warning, as
the `int8`/`byte`/`int`/... entries of `DefaultMappings` are built. -/
def widenedProto (name castFrom warnFmt : String) : ProtoType :=
  { (plainProto name true) with
    decorators := [Decorator.castToBasic castFrom], warn := warnFmt }

/-- The `time.Time` entry of `DefaultMappings`. -/
def timeTimeProto : ProtoType :=
  { pkg := "google.protobuf", basic := false, name := "Timestamp",
    imp := "google/protobuf/timestamp.proto",
    goImport := "github.com/gogo/protobuf/types",
    decorators := [Decorator.stdTime], warn := "" }

/-- The `time.Duration` entry of `DefaultMappings`. -/
def timeDurationProto : ProtoType :=
  { pkg := "google.protobuf", basic := false, name := "Duration",
    imp := "google/protobuf/duration.proto",
    goImport := "github.com/gogo/protobuf/types",
    decorators := [Decorator.stdDuration], warn := "" }

/-- `DefaultMappings` (protobuf/mapping.go). -/
def defaultMappings : TypeMappings :=
  [ ("float64", plainProto "double" true),
    ("float32", plainProto "float" true),
    ("int32", plainProto "int32" true),
    ("int64", plainProto "int64" true),
    ("uint32", plainProto "uint32" true),
    ("uint64", plainProto "uint64" true),
    ("bool", plainProto "bool" true),
    ("string", plainProto "string" true),
    ("uint8", widenedProto "uint32" "uint8" "type %s was upgraded to uint32"),
    ("int8", widenedProto "int32" "int8" "type %s was upgraded to int32"),
    ("byte", widenedProto "uint32" "byte" "type %s was upgraded to uint32"),
    ("uint16", widenedProto "uint32" "uint16" "type %s was upgraded to uint32"),
    ("int16", widenedProto "int32" "int16" "type %s was upgraded to int32"),
    ("int", widenedProto "int64" "int" "type %s was upgraded to int64"),
    ("uint", widenedProto "uint64" "uint" "type %s was upgraded to uint64"),
    ("uintptr", { (plainProto "uint64" true) with
                  decorators := [Decorator.castToBasic "uintptr"] }),
    ("rune", { (plainProto "int32" true) with
               decorators := [Decorator.castToBasic "rune"] }),
    ("time.Time", timeTimeProto),
    ("time.Duration", timeDurationProto) ]

/-- The protobuf `Type` variant: named types, basic types, maps and alias
(cast) types, each carrying the optional scanner source type set through
`SetSource` (`SType.snil` models an unset source).  `pbnil` models a Go
`nil` value of the `protobuf.Type` interface. -/
inductive PbType where
  | pbnil
  | pbbasic (name : String) (source : SType)
  | pbnamed (pkg name : String) (generated : Bool) (source : SType)
  | pbmap (key value : PbType) (source : SType)
  | pbalias (typ underlying : PbType) (source : SType)
deriving Repr, DecidableEq

namespace PbType

/-- `SetSource`: record the scanner type a protobuf type was derived from
(no effect on a nil value, which the Go code never touches). -/
def setSource (t : PbType) (s : SType) : PbType :=
  match t with
  | pbnil => pbnil
  | pbbasic n _ => pbbasic n s
  | pbnamed p n g _ => pbnamed p n g s
  | pbmap k v _ => pbmap k v s
  | pbalias a u _ => pbalias a u s

/-- `Source`: the recorded scanner type. -/
def source : PbType → SType
  | pbnil => SType.snil
  | pbbasic _ s => s
  | pbnamed _ _ _ s => s
  | pbmap _ _ s => s
  | pbalias _ _ s => s

end PbType

/-- `ProtoType.Type()` (protobuf/mapping.go): a basic or a named protobuf
type, with no source yet. -/
def ProtoType.toType (pt : ProtoType) : PbType :=
  if pt.basic then PbType.pbbasic pt.name SType.snil
  else PbType.pbnamed pt.pkg pt.name false SType.snil

/-- `protobuf.Field`: a message field. -/
structure PbField where
  docs : List String
  name : String
  pos : Nat
  repeated : Bool
  ftype : PbType
  options : Options
deriving Repr, DecidableEq

/-- `protobuf.Message`: a message with reserved positions, options and
fields. -/
structure PbMessage where
  name : String
  docs : List String
  reserved : List Nat
  options : Options
  fields : List PbField
deriving Repr, DecidableEq

/-- Modelled from the spec: `Message = { ..., reserved: set<uint>, ... }` —
the current `Message.Reserve` of protobuf/protobuf.go is not under `src/`
(only an older revision and its test are); per the spec and the test
(`Reserve(1); Reserve(1)` leaves one entry) it adds a position to the
reserved set only when not yet present. -/
def PbMessage.reserve (m : PbMessage) (pos : Nat) : PbMessage :=
  if m.reserved.contains pos then m
  else { m with reserved := m.reserved ++ [pos] }

/-- An empty message (`&Message{}`). -/
def emptyMessage : PbMessage :=
  { name := "", docs := [], reserved := [], options := [], fields := [] }

/-- An empty field (`&Field{}`). -/
def emptyField : PbField :=
  { docs := [], name := "", pos := 0, repeated := false
    ftype := PbType.pbnil, options := [] }

/-- `protobuf.EnumValue`. -/
structure PbEnumValue where
  docs : List String
  name : String
  value : Nat
  options : Options
deriving Repr, DecidableEq

/-- `protobuf.Enum`. -/
structure PbEnum where
  docs : List String
  name : String
  options : Options
  values : List PbEnumValue
deriving Repr, DecidableEq

/-- `protobuf.RPC`: one service method. -/
structure RPC where
  docs : List String
  name : String
  recv : String
  method : String
  hasCtx : Bool
  hasError : Bool
  isVariadic : Bool
  input : PbType
  output : PbType
deriving Repr, DecidableEq

/-- `protobuf.Package`: a single `.proto` file. -/
structure PbPackage where
  name : String
  path : String
  imports : List String
  options : Options
  messages : List PbMessage
  enums : List PbEnum
  rpcs : List RPC
deriving Repr, DecidableEq

namespace PbPackage

/-- `isImported` (protobuf/protobuf.go): linear scan of the import list. -/
def isImported (p : PbPackage) (file : String) : Bool :=
  p.imports.contains file

/-- `Package.Import` (protobuf/protobuf.go): add the mapping's import file
when it is non-empty and not yet imported. -/
def importType (p : PbPackage) (typ : ProtoType) : PbPackage :=
  if typ.imp ≠ "" ∧ ¬ p.isImported typ.imp then
    { p with imports := p.imports ++ [typ.imp] }
  else p

/-- `filepath.Join` for the two-argument uses in this code base; the Go
function also cleans the result, which is the identity on the already
clean relative paths the pipeline passes. -/
def joinPath (a b : String) : String :=
  if a = "" then b else a ++ "/" ++ b

/-- `Package.ImportFromPath` (protobuf/protobuf.go): import
`<path>/generated.proto` when the path is not the package's own path and
the file is not yet imported. -/
def importFromPath (p : PbPackage) (path : String) : PbPackage :=
  let file := joinPath path "generated.proto"
  if path ≠ p.path ∧ ¬ p.isImported file then
    { p with imports := p.imports ++ [file] }
  else p

end PbPackage

/-! ## Transformer (protobuf/transform.go)

The transformer converts a resolved scanner package into a protobuf
package.  The Go methods mutate the `*Package` (imports, synthesized
messages) and the `*Field` (options set by decorators and by the cast-type
rule) in place; the model threads both explicitly and returns the warnings
that `report.Warn`/`report.Error` would print. -/

/-- `TypeSet` (protobuf/type_set.go): a set of `(package, name)` pairs. -/
abbrev TypeSet := List (String × String)

/-- `TypeSet.Contains`. -/
def TypeSet.containsName (ts : TypeSet) (pkg name : String) : Bool :=
  ts.contains (pkg, name)

/-- `Transformer`: custom mappings plus the known struct and enum sets. -/
structure Transformer where
  mappings : TypeMappings
  structSet : TypeSet
  enumSet : TypeSet
deriving Repr, DecidableEq

namespace Transformer

/-- `IsEnum`. -/
def isEnum (t : Transformer) (pkg name : String) : Bool :=
  t.enumSet.containsName pkg name

/-- `IsStruct`. -/
def isStruct (t : Transformer) (pkg name : String) : Bool :=
  t.structSet.containsName pkg name

end Transformer

/-- `isNamed` (protobuf/transform.go): type assertion to `*scanner.Named`. -/
def isNamed : SType → Bool
  | SType.named _ _ _ _ => true
  | _ => false

/-- `isCtx` (protobuf/transform.go): the `context.Context` type. -/
def isCtx : SType → Bool
  | SType.named _ _ p n => p == "context" && n == "Context"
  | _ => false

/-- `isError` (protobuf/transform.go): the built-in `error` type (a named
type with an empty package path). -/
def isError : SType → Bool
  | SType.named _ _ p n => p == "" && n == "error"
  | _ => false

/-- `isByteSlice` (protobuf/transform.go): a repeated `byte` basic type,
i.e. a Go `[]byte`. -/
def isByteSlice : SType → Bool
  | SType.basic rep _ n => rep && n == "byte"
  | _ => false

/-- `removeFirstCtx` (protobuf/transform.go): strip a leading
`context.Context` parameter, reporting whether one was present. -/
def removeFirstCtx (types : List SType) : List SType × Bool :=
  match types with
  | first :: rest => if isCtx first then (rest, true) else (types, false)
  | [] => (types, false)

/-- `removeLastError` (protobuf/transform.go): strip a trailing `error`
result, reporting whether one was present. -/
def removeLastError (types : List SType) : List SType × Bool :=
  if types.length > 0 then
    match types.getLast? with
    | some last => if isError last then (types.dropLast, true) else (types, false)
    | none => (types, false)
  else (types, false)

/-- Go `fmt.Sprintf` with a single `%s`/`%q` verb, as used by the warning
format strings of the mappings. -/
def sprintf1 (fmt arg : String) : String :=
  (fmt.splitOn "%s").intersperse arg |>.foldl (· ++ ·) ""

/-- `findMapping` (protobuf/transform.go): custom mappings first, then the
defaults; when the mapping carries a warning format, the warning is
emitted. -/
def Transformer.findMapping (t : Transformer) (name : String) :
    Option ProtoType × List String :=
  let typ := match t.mappings.findName name with
    | some ty => some ty
    | none => defaultMappings.findName name
  match typ with
  | some ty => (some ty, if ty.warn ≠ "" then [sprintf1 ty.warn name] else [])
  | none => (none, [])

/-- `castType` (protobuf/transform.go): the cast-type annotation text; for
a named source inside the same package it is the bare name, otherwise the
qualified `TypeString`. -/
def castType (pkg : PbPackage) (typ : PbType) : String :=
  match typ.source with
  | SType.named r nu path name =>
    if pkg.path = path then name else (SType.named r nu path name).typeStr
  | s => s.typeStr

/-- `transformType` (protobuf/transform.go).  The `error` type is rejected
(with a `report.Error`, modelled as a warning string); a `Named` type uses
its mapping when one exists (importing the mapping's file and running its
decorators on the field options) and otherwise imports the target package's
schema file and becomes a protobuf `Named`; a `Basic` type must have a
mapping, otherwise it is dropped with a warning; `Map` and `Alias` recurse,
and a non-repeated `Alias` sets the `(gogoproto.casttype)` field option.
The result is `(package, field, warnings, type)`, where `pbnil` models the
Go `nil` return. -/
def Transformer.transformType (t : Transformer) (pkg : PbPackage)
    (msg : PbMessage) (fld : PbField) : SType → PbPackage × PbField × List String × PbType
  | SType.named rep nu path name =>
    let ty := SType.named rep nu path name
    if isError ty then (pkg, fld, ["error type is not supported"], PbType.pbnil)
    else
      match t.findMapping ty.str with
      | (some protoType, w) =>
        let pkg1 := pkg.importType protoType
        let fld1 := { fld with options := runDecorators protoType.decorators fld.options }
        (pkg1, fld1, w, protoType.toType.setSource ty)
      | (none, w) =>
        let pkg1 := pkg.importFromPath path
        (pkg1, fld, w, (PbType.pbnamed (toProtobufPkg path) name false SType.snil).setSource ty)
  | SType.basic rep nu name =>
    let ty := SType.basic rep nu name
    match t.findMapping name with
    | (some protoType, w) =>
      let pkg1 := pkg.importType protoType
      let fld1 := { fld with options := runDecorators protoType.decorators fld.options }
      (pkg1, fld1, w, protoType.toType.setSource ty)
    | (none, w) =>
      (pkg, fld, w ++ ["basic type \x22" ++ name ++ "\x22 is not defined in the mappings, ignoring"],
        PbType.pbnil)
  | SType.smap rep nu key value =>
    let (pkg1, fld1, w1, k) := t.transformType pkg msg fld key
    let (pkg2, fld2, w2, v) := t.transformType pkg1 msg fld1 value
    (pkg2, fld2, w1 ++ w2, PbType.pbmap k v (SType.smap rep nu key value))
  | SType.salias a u =>
    let ty := SType.salias a u
    let (pkg1, fld1, w1, d) := t.transformType pkg msg fld a
    let (pkg2, fld2, w2, un) := t.transformType pkg1 msg fld1 u
    let n := PbType.pbalias d un ty
    -- Repeated types cannot use casttype, so the option is only set for
    -- non-repeated aliases.
    let fld3 := if ¬ ty.isRepeated then
        { fld2 with
            options := fld2.options.set "(gogoproto.casttype)"
              (OptionValue.quoted (castType pkg2 d)) }
      else fld2
    (pkg2, fld3, w1 ++ w2, n)
  | SType.snil => (pkg, fld, [], PbType.pbnil)
  termination_by structural typ => typ

/-- `needsNotNullableOption` (protobuf/transform.go): a named type needs
`(gogoproto.nullable) = false` when it is not nullable and not a known
enum; aliases delegate to the underlying type and maps to the value type;
all other types never need it. -/
def Transformer.needsNotNullableOption (t : Transformer) : SType → Bool
  | SType.named rep nu path name =>
    !(SType.named rep nu path name).isNullable && !(t.isEnum path name)
  | SType.salias _ u => t.needsNotNullableOption u
  | SType.smap _ _ _ v => t.needsNotNullableOption v
  | _ => false

/-- `defaultOptionsForStructField` (protobuf/transform.go): a
`(gogoproto.customname)` option when the snake-cased name does not
round-trip through the generator's CamelCase, and `(gogoproto.nullable) =
false` when `needsNotNullableOption` holds. -/
def Transformer.defaultOptionsForStructField (t : Transformer) (field : SField) : Options :=
  let opts : Options := []
  let opts := if generatorCamelCase (toLowerSnakeCase field.name) ≠ field.name then
      opts.set "(gogoproto.customname)" (OptionValue.quoted field.name)
    else opts
  if t.needsNotNullableOption field.ftype then
    opts.set "(gogoproto.nullable)" (OptionValue.literal "false")
  else opts

/-- `transformField` (protobuf/transform.go): build the protobuf field
with the snake-cased name, default options, position and repetition flag;
`[]byte` maps specially to a non-repeated `bytes` basic type; otherwise
the type is transformed, and a nil transformed type drops the field. -/
def Transformer.transformField (t : Transformer) (pkg : PbPackage)
    (msg : PbMessage) (field : SField) (pos : Nat) :
    PbPackage × List String × Option PbField :=
  let repeated := field.ftype.isRepeated
  let f : PbField :=
    { docs := field.docs
      name := toLowerSnakeCase field.name
      options := t.defaultOptionsForStructField field
      pos := pos
      repeated := repeated
      ftype := PbType.pbnil }
  if isByteSlice field.ftype then
    (pkg, [], some { f with ftype := PbType.pbbasic "bytes" SType.snil, repeated := false })
  else
    let (pkg1, f1, w, typ) := t.transformType pkg msg f field.ftype
    if typ = PbType.pbnil then (pkg1, w, none)
    else (pkg1, w, some { f1 with ftype := typ })

/-- `transformStruct` loop body (protobuf/transform.go): walk the fields
with their 0-based index `i`; a transformable field is appended with
position `i+1`, an untransformable one reserves position `i+1` and warns. -/
def Transformer.transformStructFields (t : Transformer) (pkg : PbPackage)
    (msg : PbMessage) (i : Nat) : List SField → PbPackage × List String × PbMessage
  | [] => (pkg, [], msg)
  | f :: fs =>
    let (pkg1, w1, field?) := t.transformField pkg msg f (i + 1)
    match field? with
    | none =>
      let w := w1 ++ ["field \x22" ++ f.name ++ "\x22 of struct \x22" ++ msg.name ++
        "\x22 has an invalid type, ignoring field but reserving its position"]
      let (pkg2, w2, msg2) := t.transformStructFields pkg1 (msg.reserve (i + 1)) (i + 1) fs
      (pkg2, w ++ w2, msg2)
    | some fl =>
      let (pkg2, w2, msg2) :=
        t.transformStructFields pkg1 { msg with fields := msg.fields ++ [fl] } (i + 1) fs
      (pkg2, w1 ++ w2, msg2)

/-- `defaultOptionsForScannedMessage` (protobuf/transform.go). -/
def Transformer.defaultOptionsForScannedMessage (_t : Transformer) (s : SStruct) : Options :=
  let opts := (noOptions.set "(gogoproto.typedecl)" (OptionValue.literal "false")).set
    "(gogoproto.goproto_getters)" (OptionValue.literal "false")
  if s.isStringer then
    opts.set "(gogoproto.goproto_stringer)" (OptionValue.literal "false")
  else opts

/-- `transformStruct` (protobuf/transform.go): create the message with the
struct's docs, name and default options and process the fields. -/
def Transformer.transformStruct (t : Transformer) (pkg : PbPackage) (s : SStruct) :
    PbPackage × List String × PbMessage :=
  let msg : PbMessage :=
    { docs := s.docs, name := s.name, reserved := []
      options := t.defaultOptionsForScannedMessage s, fields := [] }
  t.transformStructFields pkg msg 0 s.fields

/-- `defaultOptionsForScannedEnum` (protobuf/transform.go). -/
def Transformer.defaultOptionsForScannedEnum (_t : Transformer) (e : SEnum) : Options :=
  let opts := (noOptions.set "(gogoproto.enumdecl)" (OptionValue.literal "false")).set
    "(gogoproto.goproto_enum_prefix)" (OptionValue.literal "false")
  if e.isStringer then
    opts.set "(gogoproto.goproto_enum_stringer)" (OptionValue.literal "false")
  else opts

/-- `transformEnum` (protobuf/transform.go): upper-snake-case the value
names, number them by their index in the (already sorted) value list, and
keep the original Go name in an `enumvalue_customname` option. -/
def Transformer.transformEnum (t : Transformer) (e : SEnum) : PbEnum :=
  { docs := e.docs
    name := e.name
    options := t.defaultOptionsForScannedEnum e
    values := e.values.enum.map (fun p =>
      { docs := p.2.docs
        name := toUpperSnakeCase p.2.name
        value := p.1
        options := noOptions.set "(gogoproto.enumvalue_customname)"
          (OptionValue.quoted p.2.name) }) }

/-- `createMessageFromTypes` loop (protobuf/transform.go): field `i`
(0-based) is named `<Prefix><i+1>` and placed at position `i+1`; fields
whose type cannot be transformed are skipped silently. -/
def Transformer.createMessageFields (t : Transformer) (pkg : PbPackage)
    (msg : PbMessage) (fieldPfx : String) (i : Nat) :
    List SType → PbPackage × List String × PbMessage
  | [] => (pkg, [], msg)
  | typ :: rest =>
    let (pkg1, w1, f?) := t.transformField pkg msg
      { docs := [], name := capitalize fieldPfx ++ toString (i + 1), ftype := typ } (i + 1)
    let msg1 := match f? with
      | some f => { msg with fields := msg.fields ++ [f] }
      | none => msg
    let (pkg2, w2, msg2) := t.createMessageFields pkg1 msg1 fieldPfx (i + 1) rest
    (pkg2, w1 ++ w2, msg2)

/-- `createMessageFromTypes` (protobuf/transform.go). -/
def Transformer.createMessageFromTypes (t : Transformer) (pkg : PbPackage)
    (name : String) (types : List SType) (fieldPfx : String) :
    PbPackage × List String × PbMessage :=
  t.createMessageFields pkg
    { name := name, docs := [], reserved := [], options := [], fields := [] }
    fieldPfx 0 types

/-- The collision warning of `transformTypeList`. -/
def warnNameCollision (msgName rpcName : String) : String :=
  "tried to register message " ++ msgName ++
    ", but there is already a message with that name. RPC " ++ rpcName ++
    " will not be generated"

/-- Wrapping branch of `transformTypeList` (protobuf/transform.go): a name
clash with an existing message or enum drops the RPC (nil result, with a
warning); otherwise the synthesized `<name><sfx>` message is appended to
the package and a generated `Named` type pointing at it is returned. -/
def Transformer.wrapTypeList (t : Transformer) (pkg : PbPackage)
    (types : List SType) (names : List String) (name sfx fieldPfx : String) :
    PbPackage × List String × PbType :=
  let msgName := name ++ sfx
  if names.contains msgName then
    (pkg, [warnNameCollision msgName name], PbType.pbnil)
  else
    let (pkg1, w, msg) := t.createMessageFromTypes pkg msgName types fieldPfx
    ({ pkg1 with messages := pkg1.messages ++ [msg] }, w,
      PbType.pbnamed (toProtobufPkg pkg.path) msgName true SType.snil)

/-- `transformTypeList` (protobuf/transform.go): the type list is wrapped
in a separate message when there is more than one element, or one element
that is repeated, or one element that is not a `Named` type (the Go
condition `len(types) != 1 || types[0].IsRepeated() || !isNamed(types[0])`).
A single non-repeated `Named` type is transformed directly, with a fresh
empty message and field. -/
def Transformer.transformTypeList (t : Transformer) (pkg : PbPackage)
    (types : List SType) (names : List String) (name sfx fieldPfx : String) :
    PbPackage × List String × PbType :=
  match types with
  | [typ] =>
    if typ.isRepeated || !isNamed typ then
      t.wrapTypeList pkg types names name sfx fieldPfx
    else
      let (pkg1, _, w, ty) := t.transformType pkg emptyMessage emptyField typ
      (pkg1, w, ty)
  | _ => t.wrapTypeList pkg types names name sfx fieldPfx

/-- `transformInputTypes` (protobuf/transform.go). -/
def Transformer.transformInputTypes (t : Transformer) (pkg : PbPackage)
    (types : List SType) (names : List String) (name : String) :
    PbPackage × List String × PbType :=
  t.transformTypeList pkg types names name "Request" "arg"

/-- `transformOutputTypes` (protobuf/transform.go). -/
def Transformer.transformOutputTypes (t : Transformer) (pkg : PbPackage)
    (types : List SType) (names : List String) (name : String) :
    PbPackage × List String × PbType :=
  t.transformTypeList pkg types names name "Response" "result"

/-- `transformFunc` (protobuf/transform.go): a method receiver must be a
`Named` type (otherwise the function is dropped with a warning) and
prefixes the RPC name; a leading `context.Context` parameter and a
trailing `error` result are stripped; the remaining inputs and outputs are
turned into the RPC's input and output types, and a nil on either side
drops the RPC. -/
def Transformer.transformFunc (t : Transformer) (pkg : PbPackage) (f : SFunc)
    (names : List String) : PbPackage × List String × Option RPC :=
  let nameRecv? : Option (String × String) :=
    match f.receiver with
    | none => some (f.name, "")
    | some (SType.named _ _ _ n) => some (n ++ "_" ++ f.name, n)
    | some _ => none
  match nameRecv? with
  | none => (pkg, ["invalid receiver type for func " ++ f.name], none)
  | some (name, receiverName) =>
    let (input, hasCtx) := removeFirstCtx f.input
    let (output, hasError) := removeLastError f.output
    let (pkg1, w1, inputType) := t.transformInputTypes pkg input names name
    let (pkg2, w2, outputType) := t.transformOutputTypes pkg1 output names name
    let rpc : RPC :=
      { docs := f.docs, name := name, recv := receiverName, method := f.name
        hasCtx := hasCtx, hasError := hasError, isVariadic := f.isVariadic
        input := inputType, output := outputType }
    if inputType = PbType.pbnil ∨ outputType = PbType.pbnil then
      (pkg2, w1 ++ w2, none)
    else
      (pkg2, w1 ++ w2, some rpc)

/-- `buildNameSet` (protobuf/transform.go): the names of the package's
enums and structs. -/
def buildNameSet (pkg : SPackage) : List String :=
  pkg.enums.map (·.name) ++ pkg.structs.map (·.name)

/-- `defaultOptionsForPackage` (protobuf/transform.go). -/
def Transformer.defaultOptionsForPackage (_t : Transformer) (p : SPackage) : Options :=
  ((noOptions.set "go_package" (OptionValue.quoted p.name)).set
    "(gogoproto.sizer_all)" (OptionValue.literal "false")).set
    "(gogoproto.protosizer_all)" (OptionValue.literal "true")

/-- Struct loop of `Transform`. -/
def Transformer.transformStructs (t : Transformer) (pkg : PbPackage) :
    List SStruct → PbPackage × List String
  | [] => (pkg, [])
  | s :: ss =>
    let (pkg1, w1, msg) := t.transformStruct pkg s
    let (pkg2, w2) := t.transformStructs
      { pkg1 with messages := pkg1.messages ++ [msg] } ss
    (pkg2, w1 ++ w2)

/-- Func loop of `Transform`: RPCs that come back non-nil are appended. -/
def Transformer.transformFuncs (t : Transformer) (pkg : PbPackage)
    (names : List String) : List SFunc → PbPackage × List String
  | [] => (pkg, [])
  | f :: fs =>
    let (pkg1, w1, rpc?) := t.transformFunc pkg f names
    let pkg1' := match rpc? with
      | some rpc => { pkg1 with rpcs := pkg1.rpcs ++ [rpc] }
      | none => pkg1
    let (pkg2, w2) := t.transformFuncs pkg1' names fs
    (pkg2, w1 ++ w2)

/-- `Transform` (protobuf/transform.go): build the protobuf package with
the mangled package name, the gogo.proto import and the default options,
then transform the structs, the enums and the functions in order. -/
def Transformer.transform (t : Transformer) (p : SPackage) :
    PbPackage × List String :=
  let pkg : PbPackage :=
    { name := toProtobufPkg p.path
      path := p.path
      imports := ["github.com/gogo/protobuf/gogoproto/gogo.proto"]
      options := t.defaultOptionsForPackage p
      messages := [], enums := [], rpcs := [] }
  let (pkg1, w1) := t.transformStructs pkg p.structs
  let pkg2 := { pkg1 with enums := p.enums.map t.transformEnum }
  let names := buildNameSet p
  let (pkg3, w3) := t.transformFuncs pkg2 names p.funcs
  (pkg3, w1 ++ w3)

/-! ## Option emission (protobuf/gen.go)

`writeOptions` and `writeFieldOptions` iterate over `options.Sorted()`.
`Options.Sorted` itself lives in the revision of protobuf/protobuf.go that
is not under `src/`; it is modelled from the spec below. -/

/-- Lexicographic comparison of character lists, the order Go's
`sort.Strings` uses on (ASCII) strings. -/
def charListLe : List Char → List Char → Bool
  | [], _ => true
  | _ :: _, [] => false
  | a :: as, b :: bs =>
    if a < b then true
    else if b < a then false
    else charListLe as bs

/-- Go string comparison `a <= b` (byte-wise; identical to character-wise
comparison on ASCII strings). -/
def goStringLe (a b : String) : Bool := charListLe a.data b.data

/-- Modelled from the spec: `Options.Sorted` of protobuf/protobuf.go is not
under `src/` (only callers in protobuf/gen.go are); the spec states
"options sort alphabetically at emit time for determinism" and "Options
within a scope emit in lexicographic order by key".  The model sorts the
option bindings by key with a stable insertion sort and Go's string
order. -/
def Options.sorted (o : Options) : Options :=
  List.insertionSort (fun a b => goStringLe a.1 b.1) o

/-- `writeOptions` (protobuf/gen.go): one `option k = v;` line per binding,
in sorted order, with an optional leading tab. -/
def writeOptions (options : Options) (indent : Bool) : String :=
  String.join (options.sorted.map (fun o =>
    (if indent then "\x09" else "") ++ "option " ++ o.1 ++ " = " ++ o.2.render ++ ";\n"))

/-- `writeFieldOptions` (protobuf/gen.go): the bracketed `[k = v, k = v]`
form, in sorted order. -/
def writeFieldOptions (options : Options) : String :=
  "[" ++ String.intercalate ", "
    (options.sorted.map (fun o => o.1 ++ " = " ++ o.2.render)) ++ "]"

/-! ## Theorems -/

section Claims

/-- C10: `Package.Import` adds a mapping's import path only if it is
non-empty and not already present, so importing the same type twice is
idempotent; `Package.ImportFromPath` adds `<path>/generated.proto` only if
`path` differs from the package's own path and the file is not yet
imported, so a package never imports its own schema file. -/
theorem import_dedup_and_no_self_import :
    (∀ (p : PbPackage) (typ : ProtoType), typ.imp = "" → p.importType typ = p) ∧
    (∀ (p : PbPackage) (typ : ProtoType), p.isImported typ.imp → p.importType typ = p) ∧
    (∀ (p : PbPackage) (typ : ProtoType), typ.imp ≠ "" → ¬ p.isImported typ.imp →
      (p.importType typ).imports = p.imports ++ [typ.imp]) ∧
    (∀ (p : PbPackage) (typ : ProtoType),
      (p.importType typ).importType typ = p.importType typ) ∧
    (∀ (p : PbPackage), p.importFromPath p.path = p) ∧
    (∀ (p : PbPackage) (path : String),
      p.isImported (PbPackage.joinPath path "generated.proto") →
      p.importFromPath path = p) ∧
    (∀ (p : PbPackage) (path : String), path ≠ p.path →
      ¬ p.isImported (PbPackage.joinPath path "generated.proto") →
      (p.importFromPath path).imports =
        p.imports ++ [PbPackage.joinPath path "generated.proto"]) := by
  refine ⟨?_, ?_, ?_, ?_, ?_, ?_, ?_⟩
  · intro p typ h
    simp [PbPackage.importType, h]
  · intro p typ h
    simp [PbPackage.importType, h]
  · intro p typ h1 h2
    simp [PbPackage.importType, h1, h2]
  · intro p typ
    by_cases h1 : typ.imp = ""
    · simp [PbPackage.importType, h1]
    · by_cases h2 : p.isImported typ.imp
      · simp [PbPackage.importType, h1, h2]
      · set q := p.importType typ with hq
        have himp : q.isImported typ.imp := by
          rw [hq]
          simp only [PbPackage.importType, PbPackage.isImported]
          rw [if_pos ⟨h1, by simpa [PbPackage.isImported] using h2⟩]
          simp
        simp [PbPackage.importType, himp]
  · intro p
    simp [PbPackage.importFromPath]
  · intro p path h
    simp [PbPackage.importFromPath, h]
  · intro p path h1 h2
    simp [PbPackage.importFromPath, h1, h2]

/-- C10 witness: a concrete run of the import functions. -/
theorem import_dedup_and_no_self_import_witness :
    ((plainProto "x" true).imp = "" ∧
      ({ name := "foo", path := "foo", imports := [], options := [], messages := [],
         enums := [], rpcs := [] } : PbPackage).importType (plainProto "x" true) =
      { name := "foo", path := "foo", imports := [], options := [], messages := [],
        enums := [], rpcs := [] }) ∧
    ({ name := "foo", path := "foo", imports := [], options := [], messages := [],
       enums := [], rpcs := [] } : PbPackage).importFromPath "foo" =
      { name := "foo", path := "foo", imports := [], options := [], messages := [],
        enums := [], rpcs := [] } := by
  refine ⟨⟨by decide, ?_⟩, ?_⟩
  · exact import_dedup_and_no_self_import.1 _ _ (by decide)
  · exact import_dedup_and_no_self_import.2.2.2.2.1 _

/-- `charListLe` agrees with the lexicographic strict order on character
lists: it holds exactly when the reverse comparison is not strictly
smaller. -/
theorem charListLe_iff_not_lex (as bs : List Char) :
    charListLe as bs = true ↔ ¬ List.Lex (· < ·) bs as := by
  induction as generalizing bs with
  | nil =>
    cases bs with
    | nil =>
      simp only [charListLe, true_iff]
      intro h
      cases h
    | cons b bs' =>
      simp only [charListLe, true_iff]
      intro h
      cases h
  | cons a as ih =>
    cases bs with
    | nil =>
      have hlex : List.Lex (· < ·) [] (a :: as) := List.Lex.nil
      simp [charListLe, hlex]
    | cons b bs' =>
      by_cases hab : a < b
      · have hnot : ¬ List.Lex (· < ·) (b :: bs') (a :: as) := by
          intro h
          cases h with
          | cons h' => exact absurd hab (lt_irrefl _)
          | rel h' => exact absurd hab (asymm h')
        simp [charListLe, hab, hnot]
      · by_cases hba : b < a
        · have hlex : List.Lex (· < ·) (b :: bs') (a :: as) := List.Lex.rel hba
          simp [charListLe, hab, hba, hlex]
        · have heq : a = b := le_antisymm (not_lt.mp hba) (not_lt.mp hab)
          subst heq
          have hiff : List.Lex (· < ·) (a :: bs') (a :: as) ↔ List.Lex (· < ·) bs' as := by
            constructor
            · intro h
              cases h with
              | cons h' => exact h'
              | rel h' => exact absurd h' (lt_irrefl _)
            · exact List.Lex.cons
          simp [charListLe, hab, hba, ih, hiff]

/-- `goStringLe` is the `≤` of the string linear order. -/
theorem goStringLe_iff_le (a b : String) : goStringLe a b = true ↔ a ≤ b := by
  rw [goStringLe, charListLe_iff_not_lex]
  rw [← not_lt]
  constructor
  · intro h hlt
    exact h (String.lt_iff_toList_lt.mp hlt)
  · intro h hlex
    exact h (String.lt_iff_toList_lt.mpr hlex)

/-- C9: in every scope, options are emitted by iterating `Options.sorted`,
whose keys are in ascending lexicographic order: the sorted list is a
permutation of the bindings, pairwise `≤` on keys, and strictly `<` when
the keys are distinct (which Go guarantees, options being a map). -/
theorem options_emitted_in_ascending_key_order :
    ∀ (o : Options) (indent : Bool),
      writeOptions o indent = String.join (o.sorted.map (fun kv =>
        (if indent then "\x09" else "") ++ "option " ++ kv.1 ++ " = " ++
          kv.2.render ++ ";\n")) ∧
      writeFieldOptions o = "[" ++ String.intercalate ", "
        (o.sorted.map (fun kv => kv.1 ++ " = " ++ kv.2.render)) ++ "]" ∧
      o.sorted.Perm o ∧
      List.Pairwise (fun a b : String × OptionValue => a.1 ≤ b.1) o.sorted ∧
      (o.keys.Nodup →
        List.Pairwise (fun a b : String × OptionValue => a.1 < b.1) o.sorted) := by
  intro o indent
  have hperm : o.sorted.Perm o := List.perm_insertionSort _ o
  have hsorted : List.Pairwise (fun a b : String × OptionValue => a.1 ≤ b.1) o.sorted := by
    have hs : List.Pairwise (fun a b : String × OptionValue => goStringLe a.1 b.1 = true)
        o.sorted := by
      letI : IsTotal (String × OptionValue) (fun a b => goStringLe a.1 b.1 = true) :=
        ⟨fun a b => by
          rcases le_total a.1 b.1 with h | h
          · exact Or.inl ((goStringLe_iff_le _ _).mpr h)
          · exact Or.inr ((goStringLe_iff_le _ _).mpr h)⟩
      letI : IsTrans (String × OptionValue) (fun a b => goStringLe a.1 b.1 = true) :=
        ⟨fun _ _ _ hab hbc => (goStringLe_iff_le _ _).mpr
          (le_trans ((goStringLe_iff_le _ _).mp hab) ((goStringLe_iff_le _ _).mp hbc))⟩
      exact List.sorted_insertionSort _ o
    exact hs.imp (fun h => (goStringLe_iff_le _ _).mp h)
  refine ⟨rfl, rfl, hperm, hsorted, ?_⟩
  intro hnodup
  have hnodup' : (o.sorted.map Prod.fst).Nodup :=
    ((hperm.map Prod.fst).nodup_iff).mpr hnodup
  have hne : List.Pairwise (fun a b : String × OptionValue => a.1 ≠ b.1) o.sorted :=
    (List.pairwise_map).mp hnodup'
  exact (hsorted.and hne).imp (fun h => lt_of_le_of_ne h.1 h.2)

/-- C9 witness: a concrete option map with unique keys sorts strictly. -/
theorem options_emitted_in_ascending_key_order_witness :
    (Options.keys [("b", OptionValue.literal "1"), ("a", OptionValue.quoted "x"),
      ("c", OptionValue.literal "2")]).Nodup ∧
    List.Pairwise (fun a b : String × OptionValue => a.1 < b.1)
      (Options.sorted [("b", OptionValue.literal "1"), ("a", OptionValue.quoted "x"),
        ("c", OptionValue.literal "2")]) :=
  ⟨by decide, (options_emitted_in_ascending_key_order
    [("b", OptionValue.literal "1"), ("a", OptionValue.quoted "x"),
      ("c", OptionValue.literal "2")] true).2.2.2.2 (by decide)⟩

/-- C6 counterexample: `toProtobufPkg` does not lower-case its input, so
the protobuf package name of the import path `"Foo"` is `"Foo"`, which
contains an upper case letter — the claim that the result is a lowercase
transliteration with no uppercase letters is false. -/
theorem toProtobufPkg_keeps_upper_case :
    toProtobufPkg "Foo" = "Foo" ∧ ('F' ∈ (toProtobufPkg "Foo").data ∧ 'F'.isUpper) ∧
      toProtobufPkg "Foo" ≠ "foo" := by
  refine ⟨by decide, ⟨by decide, by decide⟩, by decide⟩

/-- C6 (amended): for ASCII import paths, every character of the computed
protobuf package name is a letter (of either case), a digit, or a dot: in
particular `/` and `.` become `.`, and hyphens are dropped. -/
theorem toProtobufPkg_only_letters_digits_dots :
    ∀ (path : String), (∀ c ∈ path.data, c.toNat < 128) →
      ∀ c ∈ (toProtobufPkg path).data, c.isAlpha ∨ c.isDigit ∨ c = '.' := by
  intro path _ c hc
  simp only [toProtobufPkg, stripCombiningMarks, String.data] at hc
  rw [List.mem_filter] at hc
  obtain ⟨hc, _⟩ := hc
  rw [List.mem_filter] at hc
  obtain ⟨hc, hne⟩ := hc
  rw [List.mem_map] at hc
  obtain ⟨c0, _, rfl⟩ := hc
  by_cases hdot : c0 = '/' ∨ c0 = '.'
  · right; right
    simp [toProtobufPkgRune, hdot]
  · by_cases halpha : (unicodeIsLetter c0 || unicodeIsNumber c0) = true
    · have hke : toProtobufPkgRune c0 = c0 := by
        simp [toProtobufPkgRune, hdot, halpha]
      rw [hke]
      rcases Bool.or_eq_true_iff.mp halpha with h | h
      · left; exact h
      · right; left; exact h
    · exfalso
      rw [decide_eq_true_iff] at hne
      apply hne
      simp [toProtobufPkgRune, hdot, halpha]

/-- C6 witness: the amended statement at a concrete ASCII path. -/
theorem toProtobufPkg_only_letters_digits_dots_witness :
    (∀ c ∈ ("gopkg.in/go-foo/foo.v1" : String).data, c.toNat < 128) ∧
    (∀ c ∈ (toProtobufPkg "gopkg.in/go-foo/foo.v1").data,
      c.isAlpha ∨ c.isDigit ∨ c = '.') :=
  ⟨by decide, toProtobufPkg_only_letters_digits_dots _ (by decide)⟩

/-- C3: a struct field whose scanned type is the basic type `byte` with the
repeated modifier (a Go `[]byte`) becomes a protobuf field of basic type
`bytes` with `repeated = false`, never a repeated `uint32`; the package is
untouched and no warning is emitted. -/
theorem byte_slice_maps_to_bytes :
    ∀ (t : Transformer) (pkg : PbPackage) (msg : PbMessage) (field : SField)
      (pos : Nat) (nullable : Bool),
      field.ftype = SType.basic true nullable "byte" →
      ∃ f, t.transformField pkg msg field pos = (pkg, [], some f) ∧
        f.ftype = PbType.pbbasic "bytes" SType.snil ∧
        f.repeated = false ∧
        f.pos = pos ∧
        f.name = toLowerSnakeCase field.name ∧
        (∀ s, f.ftype ≠ PbType.pbbasic "uint32" s) := by
  intro t pkg msg field pos nullable heq
  refine ⟨{ docs := field.docs
            name := toLowerSnakeCase field.name
            options := t.defaultOptionsForStructField field
            pos := pos
            repeated := false
            ftype := PbType.pbbasic "bytes" SType.snil }, ?_, rfl, rfl, rfl, rfl, ?_⟩
  · simp [Transformer.transformField, heq, isByteSlice, SType.isRepeated]
  · intro s
    simp

/-- C3 witness: a concrete `[]byte` field. -/
theorem byte_slice_maps_to_bytes_witness :
    ({ docs := [], name := "Data", ftype := SType.basic true false "byte" } :
      SField).ftype = SType.basic true false "byte" ∧
    ∃ f, Transformer.transformField { mappings := [], structSet := [], enumSet := [] }
        { name := "foo", path := "foo", imports := [], options := [], messages := [],
          enums := [], rpcs := [] }
        emptyMessage
        { docs := [], name := "Data", ftype := SType.basic true false "byte" } 1 =
      ({ name := "foo", path := "foo", imports := [], options := [], messages := [],
         enums := [], rpcs := [] }, [], some f) ∧
      f.ftype = PbType.pbbasic "bytes" SType.snil ∧
      f.repeated = false ∧
      f.pos = 1 ∧
      f.name = toLowerSnakeCase "Data" ∧
      (∀ s, f.ftype ≠ PbType.pbbasic "uint32" s) :=
  ⟨rfl, byte_slice_maps_to_bytes _ _ _ _ 1 false rfl⟩

/-- C2: when a named type resolves through the aliases index, a repeated
alias target makes resolution return `none` with a warning (and a struct
field of that type is dropped), while a non-repeated target yields an
`Alias` whose declared side is the original named type and whose underlying
side is the alias target. -/
theorem alias_resolution :
    ∀ (r : Resolver) (info : PackagesInfo) (rep nu : Bool) (path name : String)
      (u : SType),
      ¬ r.isCustomType (SType.named rep nu path name) →
      info.hasPackage path →
      info.aliasOf (SType.named rep nu path name) = some u →
      (u.isRepeated = true →
        r.resolveType info (SType.named rep nu path name) =
          (info, [warnRepeatedAlias name path u.str], none) ∧
        (∀ (s : SStruct) (f : SField), f.ftype = SType.named rep nu path name →
          s.fields = [f] → (r.resolveStruct info s).2.2.fields = [])) ∧
      (u.isRepeated = false →
        r.resolveType info (SType.named rep nu path name) =
          (info, [], some (SType.salias (SType.named rep nu path name) u))) := by
  intro r info rep nu path name u hcustom hpkg halias
  constructor
  · intro hrep
    have hres : r.resolveType info (SType.named rep nu path name) =
        (info, [warnRepeatedAlias name path u.str], none) := by
      simp [Resolver.resolveType, hcustom, hpkg, halias, hrep]
    refine ⟨hres, ?_⟩
    intro s f hf hs
    simp [Resolver.resolveStruct, hs, Resolver.resolveStructFields, hf, hres]
  · intro hrep
    simp [Resolver.resolveType, hcustom, hpkg, halias, hrep]

/-- C2 witness: a concrete package whose alias `foo.T` targets a repeated
`int` (dropped, warned) and one whose alias targets a plain `int`
(resolved to an `Alias`). -/
theorem alias_resolution_witness :
    (¬ Resolver.new.isCustomType (SType.named false false "foo" "T") ∧
      PackagesInfo.hasPackage
        { aliases := [("foo.T", SType.basic true false "int")],
          packages := ["foo"], structs := [] } "foo" ∧
      PackagesInfo.aliasOf
        { aliases := [("foo.T", SType.basic true false "int")],
          packages := ["foo"], structs := [] }
        (SType.named false false "foo" "T") = some (SType.basic true false "int") ∧
      (SType.basic true false "int").isRepeated = true) ∧
    Resolver.new.resolveType
      { aliases := [("foo.T", SType.basic true false "int")],
        packages := ["foo"], structs := [] }
      (SType.named false false "foo" "T") =
      ({ aliases := [("foo.T", SType.basic true false "int")],
         packages := ["foo"], structs := [] },
        [warnRepeatedAlias "T" "foo" (SType.basic true false "int").str], none) :=
  ⟨⟨by decide, by decide, by decide, by decide⟩,
    ((alias_resolution Resolver.new _ false false "foo" "T" _
      (by decide) (by decide) (by decide)).1 (by decide)).1⟩

/-- C5: an enum produced by the pipeline carries ordinals `0..n-1` in
order (the transformer numbers values sequentially), and the value order
is the candidate constants sorted ascending by their declared iota
ordinal (the scanner sorts before the transformer numbers). -/
theorem enum_ordinals_sequential_and_sorted :
    ∀ (t : Transformer) (ctx : ScanContext) (name : String) (vals : List String)
      (hasStr : Bool),
      (t.transformEnum (newEnum ctx name vals hasStr)).values.map (·.value) =
        List.range (newEnum ctx name vals hasStr).values.length ∧
      (newEnum ctx name vals hasStr).values.map (·.name) =
        (sortEnumPairs (enumPairs ctx vals)).map Prod.fst ∧
      List.Pairwise (· ≤ ·) ((sortEnumPairs (enumPairs ctx vals)).map Prod.snd) ∧
      (sortEnumPairs (enumPairs ctx vals)).Perm (enumPairs ctx vals) := by
  intro t ctx name vals hasStr
  refine ⟨?_, ?_, ?_, ?_⟩
  · simp [Transformer.transformEnum, List.map_map]
    have : ((newEnum ctx name vals hasStr).values.enum.map Prod.fst) =
        List.range (newEnum ctx name vals hasStr).values.length :=
      List.enum_map_fst _
    rw [← this]
    rfl
  · simp [newEnum, List.map_map]
  · have hsorted : List.Pairwise (fun a b : String × Nat => a.2 ≤ b.2)
        (sortEnumPairs (enumPairs ctx vals)) := by
      letI : IsTotal (String × Nat) (fun a b => a.2 ≤ b.2) :=
        ⟨fun a b => le_total a.2 b.2⟩
      letI : IsTrans (String × Nat) (fun a b => a.2 ≤ b.2) :=
        ⟨fun _ _ _ hab hbc => le_trans hab hbc⟩
      exact List.sorted_insertionSort _ _
    exact (List.pairwise_map).mpr hsorted
  · exact List.perm_insertionSort _ _

/-- Reading the key just written by a Go map assignment, replacing case. -/
theorem getVal_map_replace (l : List (String × OptionValue)) (k : String)
    (v : OptionValue) (h : l.any (fun p => p.1 == k)) :
    Options.getVal (l.map (fun q => if q.1 == k then (k, v) else q)) k = some v := by
  induction l with
  | nil => simp at h
  | cons p ps ih =>
    by_cases hp : p.1 = k
    · have hb : (p.1 == k) = true := beq_iff_eq.mpr hp
      simp [Options.getVal, hb]
    · have hb : (p.1 == k) = false := by simpa using hp
      simp only [List.any_cons, hb, Bool.false_or] at h
      simp only [List.map_cons, hb, Bool.false_eq_true, if_false]
      simp only [Options.getVal, hp, if_false]
      exact ih h

/-- Reading the key just written by a Go map assignment, appending case. -/
theorem getVal_append_new (l : List (String × OptionValue)) (k : String)
    (v : OptionValue) (h : l.any (fun p => p.1 == k) = false) :
    Options.getVal (l ++ [(k, v)]) k = some v := by
  induction l with
  | nil => simp [Options.getVal]
  | cons p ps ih =>
    simp only [List.any_cons, Bool.or_eq_false_iff] at h
    have hp : p.1 ≠ k := by simpa using h.1
    simp only [List.cons_append, Options.getVal, hp, if_false]
    exact ih h.2

/-- Replacing the binding of `k` does not change reads of other keys. -/
theorem getVal_map_other (l : List (String × OptionValue)) (k k' : String)
    (v : OptionValue) (hne : k' ≠ k) :
    Options.getVal (l.map (fun q => if q.1 == k then (k, v) else q)) k' =
      Options.getVal l k' := by
  induction l with
  | nil => simp
  | cons p ps ih =>
    by_cases hp : p.1 = k
    · have hb : (p.1 == k) = true := beq_iff_eq.mpr hp
      have h1 : k ≠ k' := fun he => hne he.symm
      have h2 : p.1 ≠ k' := by rw [hp]; exact h1
      simp only [List.map_cons, hb, if_true, Options.getVal, h1, h2, if_false]
      exact ih
    · have hb : (p.1 == k) = false := by simpa using hp
      simp only [List.map_cons, hb, Bool.false_eq_true, if_false]
      by_cases hp' : p.1 = k'
      · simp [Options.getVal, hp']
      · simp only [Options.getVal, hp', if_false]
        exact ih

/-- Appending a binding of `k` does not change reads of other keys. -/
theorem getVal_append_other (l : List (String × OptionValue)) (k k' : String)
    (v : OptionValue) (hne : k' ≠ k) :
    Options.getVal (l ++ [(k, v)]) k' = Options.getVal l k' := by
  induction l with
  | nil =>
    have h1 : k ≠ k' := fun he => hne he.symm
    simp [Options.getVal, h1]
  | cons p ps ih =>
    by_cases hp' : p.1 = k'
    · simp [List.cons_append, Options.getVal, hp']
    · simp only [List.cons_append, Options.getVal, hp', if_false]
      exact ih

/-- Go map assignment then read of the same key. -/
theorem Options.getVal_set (o : Options) (k : String) (v : OptionValue) :
    (o.set k v).getVal k = some v := by
  by_cases h : o.any (fun p => p.1 == k)
  · simp only [Options.set, h, if_true]
    exact getVal_map_replace o k v h
  · simp only [Options.set, h, Bool.false_eq_true, if_false]
    exact getVal_append_new o k v (by rwa [Bool.not_eq_true] at h)

/-- Go map assignment then read of a different key. -/
theorem Options.getVal_set_ne (o : Options) (k k' : String) (v : OptionValue)
    (hne : k' ≠ k) : (o.set k v).getVal k' = o.getVal k' := by
  by_cases h : o.any (fun p => p.1 == k)
  · simp only [Options.set, h, if_true]
    exact getVal_map_other o k k' v hne
  · simp only [Options.set, h, Bool.false_eq_true, if_false]
    exact getVal_append_other o k k' v hne

/-- C7 counterexample: a field of the nullable type `*time.Time` (a
`Named` with `nullable = true`) still receives `(gogoproto.nullable) =
false`, set by the `time.Time` mapping's decorator — refuting the claim
that fields whose type is nullable never receive that option. -/
theorem nullable_time_field_gets_not_nullable_option :
    (SType.named false true "time" "Time").isNullable = true ∧
    (((Transformer.mk [] [] []).transformField
        { name := "foo", path := "foo", imports := [], options := [], messages := [],
          enums := [], rpcs := [] }
        emptyMessage
        { docs := [], name := "T", ftype := SType.named false true "time" "Time" }
        1).2.2.map
      (fun f => f.options.getVal "(gogoproto.nullable)")) =
      some (some (OptionValue.literal "false")) := by
  refine ⟨rfl, by decide⟩


/-- When `needsNotNullableOption` is false, the default field options do
not contain the nullable option. -/
theorem getVal_nullable_default_base (t : Transformer) (field : SField)
    (h : t.needsNotNullableOption field.ftype = false) :
    (t.defaultOptionsForStructField field).getVal "(gogoproto.nullable)" = none := by
  simp only [Transformer.defaultOptionsForStructField, h, Bool.false_eq_true, if_false]
  split
  · simp [Options.set, Options.getVal]
  · simp [Options.getVal]

/-- When `needsNotNullableOption` holds, the default field options contain
`(gogoproto.nullable) = false`. -/
theorem getVal_nullable_default_set (t : Transformer) (field : SField)
    (h : t.needsNotNullableOption field.ftype = true) :
    (t.defaultOptionsForStructField field).getVal "(gogoproto.nullable)" =
      some (OptionValue.literal "false") := by
  simp only [Transformer.defaultOptionsForStructField, h, if_true]
  exact Options.getVal_set _ _ _

/-- Whether a decorator sets `(gogoproto.nullable)`: the std-time and
std-duration decorators do, the cast decorator does not. -/
def decoratorSetsNullable : Decorator → Bool
  | Decorator.castToBasic _ => false
  | Decorator.stdTime => true
  | Decorator.stdDuration => true

/-- Whether `transformType` runs a decorator that sets
`(gogoproto.nullable)` along the way: the mapping's decorators for a
`Named` (never the unsupported `error`) or `Basic` type, either side of an
`Alias`, the key or the value of a `Map`. -/
def nullableDecorated (t : Transformer) : SType → Bool
  | SType.named rep nu path name =>
    if isError (SType.named rep nu path name) then false
    else
      match (t.findMapping (SType.named rep nu path name).str).1 with
      | some pt => pt.decorators.any decoratorSetsNullable
      | none => false
  | SType.basic _ _ name =>
    match (t.findMapping name).1 with
    | some pt => pt.decorators.any decoratorSetsNullable
    | none => false
  | SType.salias a u => nullableDecorated t a || nullableDecorated t u
  | SType.smap _ _ k v => nullableDecorated t k || nullableDecorated t v
  | SType.snil => false

/-- The cast decorator leaves the nullable option untouched. -/
theorem getVal_run_castToBasic (o : Options) (b : String) :
    ((Decorator.castToBasic b).run o).getVal "(gogoproto.nullable)" =
      o.getVal "(gogoproto.nullable)" :=
  Options.getVal_set_ne o "(gogoproto.casttype)" "(gogoproto.nullable)"
    (OptionValue.quoted b) (by decide)

/-- Running a decorator list: the nullable option ends up `false` exactly
when some decorator sets it, and is otherwise untouched. -/
theorem getVal_runDecorators (ds : List Decorator) :
    ∀ (o : Options), (runDecorators ds o).getVal "(gogoproto.nullable)" =
      if ds.any decoratorSetsNullable then some (OptionValue.literal "false")
      else o.getVal "(gogoproto.nullable)" := by
  induction ds with
  | nil => intro o; simp [runDecorators]
  | cons d ds ih =>
    intro o
    have hstep : runDecorators (d :: ds) o = runDecorators ds (d.run o) := rfl
    rw [hstep, ih (d.run o)]
    cases d with
    | castToBasic b =>
      simp only [List.any_cons, decoratorSetsNullable, Bool.false_or,
        getVal_run_castToBasic]
    | stdTime =>
      have hv : (Decorator.stdTime.run o).getVal "(gogoproto.nullable)" =
          some (OptionValue.literal "false") := Options.getVal_set _ _ _
      simp [List.any_cons, decoratorSetsNullable, hv]
    | stdDuration =>
      have hv : (Decorator.stdDuration.run o).getVal "(gogoproto.nullable)" =
          some (OptionValue.literal "false") := Options.getVal_set _ _ _
      simp [List.any_cons, decoratorSetsNullable, hv]

/-- `transformType` sets `(gogoproto.nullable) = false` on the field
exactly when a decorator along the way sets it, and otherwise leaves the
field's nullable option untouched. -/
theorem transformType_nullable_option (t : Transformer) (msg : PbMessage)
    (typ : SType) :
    ∀ (pkg : PbPackage) (fld : PbField),
      ((t.transformType pkg msg fld typ).2.1).options.getVal "(gogoproto.nullable)" =
        if nullableDecorated t typ then some (OptionValue.literal "false")
        else fld.options.getVal "(gogoproto.nullable)" := by
  induction typ with
  | snil => intro pkg fld; simp [Transformer.transformType, nullableDecorated]
  | basic rep nu name =>
    intro pkg fld
    rcases hm : t.findMapping name with ⟨o, w⟩
    cases o with
    | none => simp [Transformer.transformType, nullableDecorated, hm]
    | some pt =>
      simp only [Transformer.transformType, nullableDecorated, hm]
      exact getVal_runDecorators pt.decorators fld.options
  | named rep nu path name =>
    intro pkg fld
    by_cases herr : isError (SType.named rep nu path name) = true
    · simp [Transformer.transformType, nullableDecorated, herr]
    · have herr' : isError (SType.named rep nu path name) = false := by simpa using herr
      rcases hm : t.findMapping (SType.named rep nu path name).str with ⟨o, w⟩
      cases o with
      | none => simp [Transformer.transformType, nullableDecorated, herr', hm]
      | some pt =>
        simp only [Transformer.transformType, nullableDecorated, herr', hm,
          Bool.false_eq_true, if_false]
        exact getVal_runDecorators pt.decorators fld.options
  | smap rep nu key value ihk ihv =>
    intro pkg fld
    rcases h1 : t.transformType pkg msg fld key with ⟨p1, f1, w1, k⟩
    rcases h2 : t.transformType p1 msg f1 value with ⟨p2, f2, w2, v⟩
    have hk := ihk pkg fld
    have hv := ihv p1 f1
    rw [h1] at hk
    rw [h2] at hv
    simp only [Transformer.transformType, h1, h2]
    rw [show nullableDecorated t (SType.smap rep nu key value) =
      (nullableDecorated t key || nullableDecorated t value) from rfl]
    rw [hv, hk]
    cases hdk : nullableDecorated t key <;>
      cases hdv : nullableDecorated t value <;> simp
  | salias a u iha ihu =>
    intro pkg fld
    rcases h1 : t.transformType pkg msg fld a with ⟨p1, f1, w1, d⟩
    rcases h2 : t.transformType p1 msg f1 u with ⟨p2, f2, w2, un⟩
    have ha := iha pkg fld
    have hu := ihu p1 f1
    rw [h1] at ha
    rw [h2] at hu
    have hcomp : f2.options.getVal "(gogoproto.nullable)" =
        if nullableDecorated t (SType.salias a u) then
          some (OptionValue.literal "false")
        else fld.options.getVal "(gogoproto.nullable)" := by
      rw [show nullableDecorated t (SType.salias a u) =
        (nullableDecorated t a || nullableDecorated t u) from rfl]
      rw [hu, ha]
      cases hda : nullableDecorated t a <;>
        cases hdu : nullableDecorated t u <;> simp
    have hset : ∀ (v' : OptionValue),
        (f2.options.set "(gogoproto.casttype)" v').getVal "(gogoproto.nullable)" =
          f2.options.getVal "(gogoproto.nullable)" :=
      fun v' => Options.getVal_set_ne f2.options _ _ v' (by decide)
    simp only [Transformer.transformType, h1, h2]
    split
    · exact (hset _).trans hcomp
    · exact hcomp

/-- C7 (amended): `(gogoproto.nullable) = false` is attached to a field by
two rules.  The default-options rule fires exactly when
`needsNotNullableOption` holds — a predicate that judges a `Named` type by
"not nullable and not a known enum", delegates an `Alias` to its
underlying type and a `Map` to its value type (ignoring the alias's and
map's own nullability), and rejects `Basic` types; the decorator rule
fires when the field's type resolves through mappings whose decorators set
the option (the std-time and std-duration built-ins).  A field kept by
`transformField` whose type is not `[]byte` carries the option exactly
when one of the two rules fires; a kept `[]byte` field never carries
it. -/
theorem not_nullable_option_rule :
    ∀ (t : Transformer) (field : SField) (pkg : PbPackage) (msg : PbMessage) (pos : Nat),
      (∀ (rep nu : Bool) (path name : String),
        t.needsNotNullableOption (SType.named rep nu path name) =
          (!nu && !(t.isEnum path name))) ∧
      (∀ (a u : SType), t.needsNotNullableOption (SType.salias a u) =
        t.needsNotNullableOption u) ∧
      (∀ (rep nu : Bool) (k v : SType),
        t.needsNotNullableOption (SType.smap rep nu k v) =
          t.needsNotNullableOption v) ∧
      (∀ (rep nu : Bool) (name : String),
        t.needsNotNullableOption (SType.basic rep nu name) = false) ∧
      (∀ (f : PbField), (t.transformField pkg msg field pos).2.2 = some f →
        isByteSlice field.ftype = false →
        (f.options.getVal "(gogoproto.nullable)" = some (OptionValue.literal "false") ↔
          (t.needsNotNullableOption field.ftype = true ∨
            nullableDecorated t field.ftype = true))) ∧
      (∀ (f : PbField), (t.transformField pkg msg field pos).2.2 = some f →
        isByteSlice field.ftype = true →
        f.options.getVal "(gogoproto.nullable)" = none) := by
  intro t field pkg msg pos
  refine ⟨fun rep nu path name => rfl, fun a u => rfl, fun rep nu k v => rfl,
    fun rep nu name => rfl, ?_, ?_⟩
  · intro f hsome hbs
    rcases hty : t.transformType pkg msg
      { docs := field.docs, name := toLowerSnakeCase field.name,
        options := t.defaultOptionsForStructField field, pos := pos,
        repeated := field.ftype.isRepeated, ftype := PbType.pbnil } field.ftype
      with ⟨p1, f1, w, typ⟩
    by_cases hnil : typ = PbType.pbnil
    · have hnone : (t.transformField pkg msg field pos).2.2 = none := by
        simp [Transformer.transformField, hbs, hty, hnil]
      rw [hnone] at hsome
      cases hsome
    · have hval : (t.transformField pkg msg field pos).2.2 =
          some { f1 with ftype := typ } := by
        simp [Transformer.transformField, hbs, hty, hnil]
      rw [hval] at hsome
      have hf : { f1 with ftype := typ } = f := Option.some.inj hsome
      subst hf
      have hopt := transformType_nullable_option t msg field.ftype pkg
        { docs := field.docs, name := toLowerSnakeCase field.name,
          options := t.defaultOptionsForStructField field, pos := pos,
          repeated := field.ftype.isRepeated, ftype := PbType.pbnil }
      rw [hty] at hopt
      show f1.options.getVal "(gogoproto.nullable)" =
          some (OptionValue.literal "false") ↔ _
      rw [hopt]
      cases hnd : nullableDecorated t field.ftype with
      | true => simp
      | false =>
        cases hneeds : t.needsNotNullableOption field.ftype with
        | true =>
          rw [getVal_nullable_default_set t field hneeds]
          simp
        | false =>
          rw [getVal_nullable_default_base t field hneeds]
          simp
  · intro f hsome hbs
    have hval : (t.transformField pkg msg field pos).2.2 = some
        { docs := field.docs, name := toLowerSnakeCase field.name, pos := pos,
          repeated := false, ftype := PbType.pbbasic "bytes" SType.snil,
          options := t.defaultOptionsForStructField field } := by
      simp [Transformer.transformField, hbs]
    rw [hval] at hsome
    have hf := Option.some.inj hsome
    subst hf
    show (t.defaultOptionsForStructField field).getVal "(gogoproto.nullable)" = none
    apply getVal_nullable_default_base
    cases hft : field.ftype with
    | basic rep nu name => simp [Transformer.needsNotNullableOption]
    | snil => rw [hft] at hbs; simp [isByteSlice] at hbs
    | named rep nu path name => rw [hft] at hbs; simp [isByteSlice] at hbs
    | salias a u => rw [hft] at hbs; simp [isByteSlice] at hbs
    | smap rep nu k v => rw [hft] at hbs; simp [isByteSlice] at hbs

/-- C7 witness: a nullable `*map[string]Foo` field — `needsNotNullableOption`
recurses to the map's value type, ignoring the map's own nullability, so
the kept field carries `(gogoproto.nullable) = false` even though the
field's type is nullable. -/
theorem not_nullable_option_rule_witness :
    isByteSlice (SType.smap false true (SType.basic false false "string")
        (SType.named false false "foo" "Bar")) = false ∧
    (SType.smap false true (SType.basic false false "string")
        (SType.named false false "foo" "Bar")).isNullable = true ∧
    ((Transformer.mk [] [] []).transformField
        { name := "foo", path := "foo", imports := [], options := [], messages := [],
          enums := [], rpcs := [] }
        emptyMessage
        { docs := [], name := "M",
          ftype := SType.smap false true (SType.basic false false "string")
            (SType.named false false "foo" "Bar") }
        1).2.2 =
      some
        { docs := [], name := "m", pos := 1, repeated := false,
          ftype := PbType.pbmap (PbType.pbbasic "string" (SType.basic false false "string"))
            (PbType.pbnamed "foo" "Bar" false (SType.named false false "foo" "Bar"))
            (SType.smap false true (SType.basic false false "string")
              (SType.named false false "foo" "Bar")),
          options := [("(gogoproto.nullable)", OptionValue.literal "false")] } ∧
    (({ docs := [], name := "m", pos := 1, repeated := false,
          ftype := PbType.pbmap (PbType.pbbasic "string" (SType.basic false false "string"))
            (PbType.pbnamed "foo" "Bar" false (SType.named false false "foo" "Bar"))
            (SType.smap false true (SType.basic false false "string")
              (SType.named false false "foo" "Bar")),
          options := [("(gogoproto.nullable)", OptionValue.literal "false")] } :
        PbField).options.getVal "(gogoproto.nullable)" =
        some (OptionValue.literal "false") ↔
      ((Transformer.mk [] [] []).needsNotNullableOption
          (SType.smap false true (SType.basic false false "string")
            (SType.named false false "foo" "Bar")) = true ∨
        nullableDecorated (Transformer.mk [] [] [])
          (SType.smap false true (SType.basic false false "string")
            (SType.named false false "foo" "Bar")) = true)) :=
  ⟨by decide, by decide, by decide,
    (not_nullable_option_rule (Transformer.mk [] [] [])
      { docs := [], name := "M",
        ftype := SType.smap false true (SType.basic false false "string")
          (SType.named false false "foo" "Bar") }
      { name := "foo", path := "foo", imports := [], options := [], messages := [],
        enums := [], rpcs := [] }
      emptyMessage 1).2.2.2.2.1
      { docs := [], name := "m", pos := 1, repeated := false,
        ftype := PbType.pbmap (PbType.pbbasic "string" (SType.basic false false "string"))
          (PbType.pbnamed "foo" "Bar" false (SType.named false false "foo" "Bar"))
          (SType.smap false true (SType.basic false false "string")
            (SType.named false false "foo" "Bar")),
        options := [("(gogoproto.nullable)", OptionValue.literal "false")] }
      (by decide) (by decide)⟩

/-- Whether `transformType` succeeds (returns a non-nil protobuf type).
Success depends only on the transformer's mappings and the scanned type,
not on the package, message or field state: only the `error` type, a basic
type without mapping, and a Go nil fail. -/
def transformOk (t : Transformer) : SType → Bool
  | SType.snil => false
  | SType.basic _ _ name => (t.findMapping name).1.isSome
  | SType.named rep nu path name => !(isError (SType.named rep nu path name))
  | SType.smap _ _ _ _ => true
  | SType.salias _ _ => true

/-- Whether `transformField` keeps a field: `[]byte` always does, any
other type by `transformOk`. -/
def fieldOk (t : Transformer) (f : SField) : Bool :=
  isByteSlice f.ftype || transformOk t f.ftype

/-- A mapping's protobuf type is never nil, whatever source is set. -/
theorem toType_setSource_ne_nil (pt : ProtoType) (s : SType) :
    pt.toType.setSource s ≠ PbType.pbnil := by
  simp only [ProtoType.toType]
  split <;> simp [PbType.setSource]

/-- `transformType` returns nil exactly when `transformOk` fails. -/
theorem transformType_nil_iff (t : Transformer) (pkg : PbPackage)
    (msg : PbMessage) (fld : PbField) (typ : SType) :
    (t.transformType pkg msg fld typ).2.2.2 = PbType.pbnil ↔
      transformOk t typ = false := by
  cases typ with
  | snil => simp [Transformer.transformType, transformOk]
  | basic rep nu name =>
    rcases hm : t.findMapping name with ⟨o, w⟩
    cases o with
    | none => simp [Transformer.transformType, transformOk, hm]
    | some pt =>
      simp [Transformer.transformType, transformOk, hm,
        toType_setSource_ne_nil pt (SType.basic rep nu name)]
  | named rep nu path name =>
    by_cases herr : isError (SType.named rep nu path name) = true
    · simp [Transformer.transformType, transformOk, herr]
    · have herr' : isError (SType.named rep nu path name) = false := by
        simpa using herr
      rcases hm : t.findMapping (SType.named rep nu path name).str with ⟨o, w⟩
      cases o with
      | none =>
        simp [Transformer.transformType, transformOk, herr', hm, PbType.setSource]
      | some pt =>
        simp [Transformer.transformType, transformOk, herr', hm,
          toType_setSource_ne_nil pt (SType.named rep nu path name)]
  | smap rep nu key value =>
    rcases h1 : t.transformType pkg msg fld key with ⟨p1, f1, w1, k⟩
    rcases h2 : t.transformType p1 msg f1 value with ⟨p2, f2, w2, v⟩
    simp [Transformer.transformType, transformOk, h1, h2]
  | salias a u =>
    rcases h1 : t.transformType pkg msg fld a with ⟨p1, f1, w1, d⟩
    rcases h2 : t.transformType p1 msg f1 u with ⟨p2, f2, w2, un⟩
    simp [Transformer.transformType, transformOk, h1, h2]

/-- `transformType` only ever touches the field's options: docs, name,
position and repetition flag pass through. -/
theorem transformType_preserves_field (t : Transformer) (msg : PbMessage)
    (typ : SType) :
    ∀ (pkg : PbPackage) (fld : PbField),
      ((t.transformType pkg msg fld typ).2.1).pos = fld.pos ∧
      ((t.transformType pkg msg fld typ).2.1).name = fld.name ∧
      ((t.transformType pkg msg fld typ).2.1).repeated = fld.repeated ∧
      ((t.transformType pkg msg fld typ).2.1).docs = fld.docs := by
  induction typ with
  | snil => intro pkg fld; simp [Transformer.transformType]
  | basic rep nu name =>
    intro pkg fld
    rcases hm : t.findMapping name with ⟨o, w⟩
    cases o <;> simp [Transformer.transformType, hm]
  | named rep nu path name =>
    intro pkg fld
    by_cases herr : isError (SType.named rep nu path name) = true
    · simp [Transformer.transformType, herr]
    · have herr' : isError (SType.named rep nu path name) = false := by simpa using herr
      rcases hm : t.findMapping (SType.named rep nu path name).str with ⟨o, w⟩
      cases o <;> simp [Transformer.transformType, herr', hm]
  | smap rep nu key value ihk ihv =>
    intro pkg fld
    rcases h1 : t.transformType pkg msg fld key with ⟨p1, f1, w1, k⟩
    rcases h2 : t.transformType p1 msg f1 value with ⟨p2, f2, w2, v⟩
    have hk := ihk pkg fld
    have hv := ihv p1 f1
    rw [h1] at hk
    rw [h2] at hv
    simp only [Transformer.transformType, h1, h2]
    exact ⟨hv.1.trans hk.1, hv.2.1.trans hk.2.1, hv.2.2.1.trans hk.2.2.1,
      hv.2.2.2.trans hk.2.2.2⟩
  | salias a u iha ihu =>
    intro pkg fld
    rcases h1 : t.transformType pkg msg fld a with ⟨p1, f1, w1, d⟩
    rcases h2 : t.transformType p1 msg f1 u with ⟨p2, f2, w2, un⟩
    have ha := iha pkg fld
    have hu := ihu p1 f1
    rw [h1] at ha
    rw [h2] at hu
    have hcomp : f2.pos = fld.pos ∧ f2.name = fld.name ∧ f2.repeated = fld.repeated ∧
        f2.docs = fld.docs :=
      ⟨hu.1.trans ha.1, hu.2.1.trans ha.2.1, hu.2.2.1.trans ha.2.2.1,
        hu.2.2.2.trans ha.2.2.2⟩
    simp only [Transformer.transformType, h1, h2]
    split
    · exact hcomp
    · exact hcomp

/-- A dropped field: `transformField` returns `none` exactly on the fields
`fieldOk` rejects. -/
theorem transformField_none (t : Transformer) (pkg : PbPackage) (msg : PbMessage)
    (f : SField) (pos : Nat) (h : fieldOk t f = false) :
    (t.transformField pkg msg f pos).2.2 = none := by
  simp only [fieldOk, Bool.or_eq_false_iff] at h
  rcases hty : t.transformType pkg msg
    { docs := f.docs, name := toLowerSnakeCase f.name,
      options := t.defaultOptionsForStructField f, pos := pos,
      repeated := f.ftype.isRepeated, ftype := PbType.pbnil } f.ftype
    with ⟨p1, f1, w, typ⟩
  have hnil : typ = PbType.pbnil := by
    have := (transformType_nil_iff t pkg msg
      { docs := f.docs, name := toLowerSnakeCase f.name,
        options := t.defaultOptionsForStructField f, pos := pos,
        repeated := f.ftype.isRepeated, ftype := PbType.pbnil } f.ftype).mpr h.2
    rw [hty] at this
    exact this
  simp [Transformer.transformField, h.1, hty, hnil]

/-- A kept field: `transformField` returns a field at the requested
position with the snake-cased name whenever `fieldOk` accepts. -/
theorem transformField_some (t : Transformer) (pkg : PbPackage) (msg : PbMessage)
    (f : SField) (pos : Nat) (h : fieldOk t f = true) :
    ∃ fl, (t.transformField pkg msg f pos).2.2 = some fl ∧ fl.pos = pos ∧
      fl.name = toLowerSnakeCase f.name := by
  by_cases hbs : isByteSlice f.ftype = true
  · have hval : (t.transformField pkg msg f pos).2.2 = some
        { docs := f.docs, name := toLowerSnakeCase f.name, pos := pos,
          repeated := false, ftype := PbType.pbbasic "bytes" SType.snil,
          options := t.defaultOptionsForStructField f } := by
      simp [Transformer.transformField, hbs]
    exact ⟨_, hval, rfl, rfl⟩
  · have hbs' : isByteSlice f.ftype = false := by simpa using hbs
    have hok : transformOk t f.ftype = true := by
      simp only [fieldOk, hbs', Bool.false_or] at h
      exact h
    rcases hty : t.transformType pkg msg
      { docs := f.docs, name := toLowerSnakeCase f.name,
        options := t.defaultOptionsForStructField f, pos := pos,
        repeated := f.ftype.isRepeated, ftype := PbType.pbnil } f.ftype
      with ⟨p1, f1, w, typ⟩
    have hnn : ¬ typ = PbType.pbnil := by
      intro hc
      have := (transformType_nil_iff t pkg msg
        { docs := f.docs, name := toLowerSnakeCase f.name,
          options := t.defaultOptionsForStructField f, pos := pos,
          repeated := f.ftype.isRepeated, ftype := PbType.pbnil } f.ftype).mp
        (by rw [hty]; exact hc)
      rw [hok] at this
      cases this
    have hpres := transformType_preserves_field t msg f.ftype pkg
      { docs := f.docs, name := toLowerSnakeCase f.name,
        options := t.defaultOptionsForStructField f, pos := pos,
        repeated := f.ftype.isRepeated, ftype := PbType.pbnil }
    rw [hty] at hpres
    refine ⟨{ f1 with ftype := typ }, ?_, hpres.1, hpres.2.1⟩
    simp [Transformer.transformField, hbs', hty, hnn]

/-- The 1-based positions of the fields `transformStructFields` keeps,
starting the 0-based walk at offset `i`. -/
def keptPos (t : Transformer) (i : Nat) : List SField → List Nat
  | [] => []
  | f :: fs =>
    if fieldOk t f then (i + 1) :: keptPos t (i + 1) fs
    else keptPos t (i + 1) fs

/-- The 1-based positions of the fields `transformStructFields` drops
(and reserves), starting the 0-based walk at offset `i`. -/
def droppedPos (t : Transformer) (i : Nat) : List SField → List Nat
  | [] => []
  | f :: fs =>
    if fieldOk t f then droppedPos t (i + 1) fs
    else (i + 1) :: droppedPos t (i + 1) fs

/-- All kept positions lie in `(i, i + length]`. -/
theorem keptPos_bounds (t : Transformer) :
    ∀ (fs : List SField) (i : Nat) (p : Nat), p ∈ keptPos t i fs →
      i < p ∧ p ≤ i + fs.length := by
  intro fs
  induction fs with
  | nil => intro i p hp; simp [keptPos] at hp
  | cons f fs ih =>
    intro i p hp
    have hlen : (f :: fs).length = fs.length + 1 := rfl
    by_cases hok : fieldOk t f = true
    · simp only [keptPos, hok, if_true, List.mem_cons] at hp
      rcases hp with rfl | hp
      · constructor <;> omega
      · have := ih (i + 1) p hp
        constructor <;> omega
    · have hok' : fieldOk t f = false := by simpa using hok
      simp only [keptPos, hok', Bool.false_eq_true, if_false] at hp
      have := ih (i + 1) p hp
      constructor <;> omega

/-- All dropped positions lie in `(i, i + length]`. -/
theorem droppedPos_bounds (t : Transformer) :
    ∀ (fs : List SField) (i : Nat) (p : Nat), p ∈ droppedPos t i fs →
      i < p ∧ p ≤ i + fs.length := by
  intro fs
  induction fs with
  | nil => intro i p hp; simp [droppedPos] at hp
  | cons f fs ih =>
    intro i p hp
    have hlen : (f :: fs).length = fs.length + 1 := rfl
    by_cases hok : fieldOk t f = true
    · simp only [droppedPos, hok, if_true] at hp
      have := ih (i + 1) p hp
      constructor <;> omega
    · have hok' : fieldOk t f = false := by simpa using hok
      simp only [droppedPos, hok', Bool.false_eq_true, if_false, List.mem_cons] at hp
      rcases hp with rfl | hp
      · constructor <;> omega
      · have := ih (i + 1) p hp
        constructor <;> omega

/-- Kept positions are strictly increasing. -/
theorem keptPos_pairwise (t : Transformer) :
    ∀ (fs : List SField) (i : Nat), List.Pairwise (· < ·) (keptPos t i fs) := by
  intro fs
  induction fs with
  | nil => intro i; simp [keptPos]
  | cons f fs ih =>
    intro i
    by_cases hok : fieldOk t f = true
    · simp only [keptPos, hok, if_true]
      refine List.Pairwise.cons ?_ (ih (i + 1))
      intro p hp
      exact (keptPos_bounds t fs (i + 1) p hp).1
    · have hok' : fieldOk t f = false := by simpa using hok
      simp only [keptPos, hok', Bool.false_eq_true, if_false]
      exact ih (i + 1)

/-- Dropped positions are strictly increasing. -/
theorem droppedPos_pairwise (t : Transformer) :
    ∀ (fs : List SField) (i : Nat), List.Pairwise (· < ·) (droppedPos t i fs) := by
  intro fs
  induction fs with
  | nil => intro i; simp [droppedPos]
  | cons f fs ih =>
    intro i
    by_cases hok : fieldOk t f = true
    · simp only [droppedPos, hok, if_true]
      exact ih (i + 1)
    · have hok' : fieldOk t f = false := by simpa using hok
      simp only [droppedPos, hok', Bool.false_eq_true, if_false]
      refine List.Pairwise.cons ?_ (ih (i + 1))
      intro p hp
      exact (droppedPos_bounds t fs (i + 1) p hp).1

/-- A position is never both kept and dropped. -/
theorem keptPos_droppedPos_disjoint (t : Transformer) :
    ∀ (fs : List SField) (i : Nat) (p : Nat),
      p ∈ keptPos t i fs → p ∈ droppedPos t i fs → False := by
  intro fs
  induction fs with
  | nil => intro i p hp _; simp [keptPos] at hp
  | cons f fs ih =>
    intro i p hk hd
    by_cases hok : fieldOk t f = true
    · simp only [keptPos, hok, if_true, List.mem_cons] at hk
      simp only [droppedPos, hok, if_true] at hd
      rcases hk with rfl | hk
      · exact absurd (droppedPos_bounds t fs (i + 1) _ hd).1 (by omega)
      · exact ih (i + 1) p hk hd
    · have hok' : fieldOk t f = false := by simpa using hok
      simp only [keptPos, hok', Bool.false_eq_true, if_false] at hk
      simp only [droppedPos, hok', Bool.false_eq_true, if_false, List.mem_cons] at hd
      rcases hd with rfl | hd
      · exact absurd (keptPos_bounds t fs (i + 1) _ hk).1 (by omega)
      · exact ih (i + 1) p hk hd


/-- The struct-fields loop appends the kept positions to the message's
fields and the dropped positions to its reserved set, provided every
already-reserved position is at most the current index (so no duplicate
reservation occurs). -/
theorem transformStructFields_spec (t : Transformer) :
    ∀ (fs : List SField) (pkg : PbPackage) (msg : PbMessage) (i : Nat),
      (∀ p ∈ msg.reserved, p ≤ i) →
      ((t.transformStructFields pkg msg i fs).2.2).fields.map (·.pos) =
          msg.fields.map (·.pos) ++ keptPos t i fs ∧
      ((t.transformStructFields pkg msg i fs).2.2).reserved =
          msg.reserved ++ droppedPos t i fs := by
  intro fs
  induction fs with
  | nil =>
    intro pkg msg i _
    simp [Transformer.transformStructFields, keptPos, droppedPos]
  | cons f fs ih =>
    intro pkg msg i hinv
    rcases hres : t.transformField pkg msg f (i + 1) with ⟨pkg1, w1, fo⟩
    cases hok : fieldOk t f with
    | false =>
      have hnone := transformField_none t pkg msg f (i + 1) hok
      rw [hres] at hnone
      simp only at hnone
      subst hnone
      have hnotmem : ¬ (i + 1) ∈ msg.reserved := by
        intro hmem
        exact absurd (hinv _ hmem) (by omega)
      have hmsg : msg.reserve (i + 1) = { msg with reserved := msg.reserved ++ [i + 1] } := by
        simp [PbMessage.reserve, hnotmem]
      have ihh := ih pkg1 { msg with reserved := msg.reserved ++ [i + 1] } (i + 1) (by
        intro p hp
        rcases List.mem_append.mp hp with hmem | hmem
        · exact le_trans (hinv p hmem) (by omega)
        · simp at hmem
          omega)
      simp only [Transformer.transformStructFields, hres, hmsg]
      refine ⟨?_, ?_⟩
      · rw [ihh.1]
        simp [keptPos, hok]
      · rw [ihh.2]
        simp [droppedPos, hok]
    | true =>
      obtain ⟨fl, hfl, hpos, hname⟩ := transformField_some t pkg msg f (i + 1) hok
      rw [hres] at hfl
      simp only at hfl
      subst hfl
      have ihh := ih pkg1 { msg with fields := msg.fields ++ [fl] } (i + 1) (by
        intro p hp
        exact le_trans (hinv p hp) (by omega))
      simp only [Transformer.transformStructFields, hres]
      refine ⟨?_, ?_⟩
      · rw [ihh.1]
        simp [keptPos, hok, hpos]
      · rw [ihh.2]
        simp [droppedPos, hok]

/-- A field at 0-based index `j` that is kept contributes position
`i + j + 1` to the kept positions. -/
theorem keptPos_mem (t : Transformer) :
    ∀ (fs : List SField) (i j : Nat) (h : j < fs.length),
      fieldOk t (fs.get ⟨j, h⟩) = true → (i + j + 1) ∈ keptPos t i fs := by
  intro fs
  induction fs with
  | nil => intro i j h; simp at h
  | cons f fs ih =>
    intro i j h hok
    cases j with
    | zero =>
      simp only [List.get] at hok
      simp [keptPos, hok]
    | succ j =>
      have hj : j < fs.length := by simpa using h
      have hmem := ih (i + 1) j hj (by simpa using hok)
      have heq : i + (j + 1) + 1 = i + 1 + j + 1 := by omega
      rw [heq]
      by_cases hf : fieldOk t f = true
      · simp only [keptPos, hf, if_true, List.mem_cons]
        exact Or.inr hmem
      · have hf' : fieldOk t f = false := by simpa using hf
        simp only [keptPos, hf', Bool.false_eq_true, if_false]
        exact hmem

/-- A field at 0-based index `j` that is dropped contributes position
`i + j + 1` to the dropped positions. -/
theorem droppedPos_mem (t : Transformer) :
    ∀ (fs : List SField) (i j : Nat) (h : j < fs.length),
      fieldOk t (fs.get ⟨j, h⟩) = false → (i + j + 1) ∈ droppedPos t i fs := by
  intro fs
  induction fs with
  | nil => intro i j h; simp at h
  | cons f fs ih =>
    intro i j h hok
    cases j with
    | zero =>
      simp only [List.get] at hok
      simp [droppedPos, hok]
    | succ j =>
      have hj : j < fs.length := by simpa using h
      have hmem := ih (i + 1) j hj (by simpa using hok)
      have heq : i + (j + 1) + 1 = i + 1 + j + 1 := by omega
      rw [heq]
      by_cases hf : fieldOk t f = true
      · simp only [droppedPos, hf, if_true]
        exact hmem
      · have hf' : fieldOk t f = false := by simpa using hf
        simp only [droppedPos, hf', Bool.false_eq_true, if_false, List.mem_cons]
        exact Or.inr hmem

/-- C4: in a message produced from a struct, each kept field at 0-based
source index `j` gets position `j + 1`, each dropped field's position
`j + 1` is reserved; all positions are `≥ 1`, at most the field count,
strictly increasing (hence unique), and the reserved numbers are disjoint
from the live field numbers. -/
theorem struct_field_positions :
    ∀ (t : Transformer) (pkg : PbPackage) (s : SStruct),
      ((t.transformStruct pkg s).2.2).fields.map (·.pos) = keptPos t 0 s.fields ∧
      ((t.transformStruct pkg s).2.2).reserved = droppedPos t 0 s.fields ∧
      List.Pairwise (· < ·) (((t.transformStruct pkg s).2.2).fields.map (·.pos)) ∧
      List.Pairwise (· < ·) ((t.transformStruct pkg s).2.2).reserved ∧
      (∀ p ∈ ((t.transformStruct pkg s).2.2).fields.map (·.pos),
        1 ≤ p ∧ p ≤ s.fields.length) ∧
      (∀ p ∈ ((t.transformStruct pkg s).2.2).reserved,
        1 ≤ p ∧ p ≤ s.fields.length) ∧
      (∀ p ∈ ((t.transformStruct pkg s).2.2).reserved,
        p ∉ ((t.transformStruct pkg s).2.2).fields.map (·.pos)) ∧
      (∀ (j : Nat) (h : j < s.fields.length),
        (fieldOk t (s.fields.get ⟨j, h⟩) = true →
          (j + 1) ∈ ((t.transformStruct pkg s).2.2).fields.map (·.pos)) ∧
        (fieldOk t (s.fields.get ⟨j, h⟩) = false →
          (j + 1) ∈ ((t.transformStruct pkg s).2.2).reserved)) := by
  intro t pkg s
  have hspec := transformStructFields_spec t s.fields pkg
    { docs := s.docs, name := s.name, reserved := []
      options := t.defaultOptionsForScannedMessage s, fields := [] } 0 (by simp)
  have hk : ((t.transformStruct pkg s).2.2).fields.map (·.pos) = keptPos t 0 s.fields := by
    rw [Transformer.transformStruct]
    rw [hspec.1]
    simp
  have hd : ((t.transformStruct pkg s).2.2).reserved = droppedPos t 0 s.fields := by
    rw [Transformer.transformStruct]
    rw [hspec.2]
    simp
  refine ⟨hk, hd, ?_, ?_, ?_, ?_, ?_, ?_⟩
  · rw [hk]; exact keptPos_pairwise t s.fields 0
  · rw [hd]; exact droppedPos_pairwise t s.fields 0
  · rw [hk]
    intro p hp
    have := keptPos_bounds t s.fields 0 p hp
    omega
  · rw [hd]
    intro p hp
    have := droppedPos_bounds t s.fields 0 p hp
    omega
  · rw [hk, hd]
    intro p hp hmem
    exact keptPos_droppedPos_disjoint t s.fields 0 p hmem hp
  · intro j h
    constructor
    · intro hok
      rw [hk]
      have := keptPos_mem t s.fields 0 j h hok
      simpa using this
    · intro hok
      rw [hd]
      have := droppedPos_mem t s.fields 0 j h hok
      simpa using this

/-- C4 witness: a struct with one representable and one unrepresentable
field keeps position 1 and reserves position 2. -/
theorem struct_field_positions_witness :
    (0 < ([{ docs := [], name := "A", ftype := SType.basic false false "int64" },
           { docs := [], name := "B", ftype := SType.basic false false "nope" }] :
        List SField).length) ∧
    (1 < ([{ docs := [], name := "A", ftype := SType.basic false false "int64" },
           { docs := [], name := "B", ftype := SType.basic false false "nope" }] :
        List SField).length) ∧
    1 ∈ (((Transformer.mk [] [] []).transformStruct
        { name := "foo", path := "foo", imports := [], options := [], messages := [],
          enums := [], rpcs := [] }
        { docs := [], generate := true, name := "S", isStringer := false,
          fields := [{ docs := [], name := "A", ftype := SType.basic false false "int64" },
                     { docs := [], name := "B", ftype := SType.basic false false "nope" }] }
        ).2.2).fields.map (·.pos) ∧
    2 ∈ (((Transformer.mk [] [] []).transformStruct
        { name := "foo", path := "foo", imports := [], options := [], messages := [],
          enums := [], rpcs := [] }
        { docs := [], generate := true, name := "S", isStringer := false,
          fields := [{ docs := [], name := "A", ftype := SType.basic false false "int64" },
                     { docs := [], name := "B", ftype := SType.basic false false "nope" }] }
        ).2.2).reserved :=
  ⟨by decide, by decide,
    ((struct_field_positions (Transformer.mk [] [] [])
      { name := "foo", path := "foo", imports := [], options := [], messages := [],
        enums := [], rpcs := [] }
      { docs := [], generate := true, name := "S", isStringer := false,
        fields := [{ docs := [], name := "A", ftype := SType.basic false false "int64" },
                   { docs := [], name := "B", ftype := SType.basic false false "nope" }] }
      ).2.2.2.2.2.2.2 0 (by decide)).1 (by decide),
    ((struct_field_positions (Transformer.mk [] [] [])
      { name := "foo", path := "foo", imports := [], options := [], messages := [],
        enums := [], rpcs := [] }
      { docs := [], generate := true, name := "S", isStringer := false,
        fields := [{ docs := [], name := "A", ftype := SType.basic false false "int64" },
                   { docs := [], name := "B", ftype := SType.basic false false "nope" }] }
      ).2.2.2.2.2.2.2 1 (by decide)).2 (by decide)⟩

/-- Importing a file never touches the message list. -/
theorem importType_messages (p : PbPackage) (pt : ProtoType) :
    (p.importType pt).messages = p.messages := by
  simp only [PbPackage.importType]
  split <;> rfl

/-- Importing a schema file never touches the message list. -/
theorem importFromPath_messages (p : PbPackage) (path : String) :
    (p.importFromPath path).messages = p.messages := by
  simp only [PbPackage.importFromPath]
  split <;> rfl

/-- `transformType` only adds imports: the package's messages are
unchanged. -/
theorem transformType_messages (t : Transformer) (msg : PbMessage) (typ : SType) :
    ∀ (pkg : PbPackage) (fld : PbField),
      ((t.transformType pkg msg fld typ).1).messages = pkg.messages := by
  induction typ with
  | snil => intro pkg fld; rfl
  | basic rep nu name =>
    intro pkg fld
    rcases hm : t.findMapping name with ⟨o, w⟩
    cases o <;> simp [Transformer.transformType, hm, importType_messages]
  | named rep nu path name =>
    intro pkg fld
    by_cases herr : isError (SType.named rep nu path name) = true
    · simp [Transformer.transformType, herr]
    · have herr' : isError (SType.named rep nu path name) = false := by simpa using herr
      rcases hm : t.findMapping (SType.named rep nu path name).str with ⟨o, w⟩
      cases o <;>
        simp [Transformer.transformType, herr', hm, importType_messages,
          importFromPath_messages]
  | smap rep nu key value ihk ihv =>
    intro pkg fld
    rcases h1 : t.transformType pkg msg fld key with ⟨p1, f1, w1, k⟩
    rcases h2 : t.transformType p1 msg f1 value with ⟨p2, f2, w2, v⟩
    have hk := ihk pkg fld
    have hv := ihv p1 f1
    rw [h1] at hk
    rw [h2] at hv
    simp only [Transformer.transformType, h1, h2]
    exact hv.trans hk
  | salias a u iha ihu =>
    intro pkg fld
    rcases h1 : t.transformType pkg msg fld a with ⟨p1, f1, w1, d⟩
    rcases h2 : t.transformType p1 msg f1 u with ⟨p2, f2, w2, un⟩
    have ha := iha pkg fld
    have hu := ihu p1 f1
    rw [h1] at ha
    rw [h2] at hu
    simp only [Transformer.transformType, h1, h2]
    exact hu.trans ha

/-- `transformField` leaves the package's messages unchanged. -/
theorem transformField_messages (t : Transformer) (pkg : PbPackage) (msg : PbMessage)
    (f : SField) (pos : Nat) :
    ((t.transformField pkg msg f pos).1).messages = pkg.messages := by
  by_cases hbs : isByteSlice f.ftype = true
  · simp [Transformer.transformField, hbs]
  · have hbs' : isByteSlice f.ftype = false := by simpa using hbs
    rcases hty : t.transformType pkg msg
      { docs := f.docs, name := toLowerSnakeCase f.name,
        options := t.defaultOptionsForStructField f, pos := pos,
        repeated := f.ftype.isRepeated, ftype := PbType.pbnil } f.ftype
      with ⟨p1, f1, w, typ⟩
    have hmsgs := transformType_messages t msg f.ftype pkg
      { docs := f.docs, name := toLowerSnakeCase f.name,
        options := t.defaultOptionsForStructField f, pos := pos,
        repeated := f.ftype.isRepeated, ftype := PbType.pbnil }
    rw [hty] at hmsgs
    simp only [Transformer.transformField, hbs', Bool.false_eq_true, if_false, hty]
    split <;> exact hmsgs

/-- The synthesized-message field loop leaves the package's messages
unchanged. -/
theorem createMessageFields_messages (t : Transformer) :
    ∀ (types : List SType) (pkg : PbPackage) (msg : PbMessage) (pfx : String) (i : Nat),
      ((t.createMessageFields pkg msg pfx i types).1).messages = pkg.messages := by
  intro types
  induction types with
  | nil => intro pkg msg pfx i; rfl
  | cons typ rest ih =>
    intro pkg msg pfx i
    rcases hf : t.transformField pkg msg
      { docs := [], name := capitalize pfx ++ toString (i + 1), ftype := typ } (i + 1)
      with ⟨pkg1, w1, fo⟩
    have h1 := transformField_messages t pkg msg
      { docs := [], name := capitalize pfx ++ toString (i + 1), ftype := typ } (i + 1)
    rw [hf] at h1
    cases fo with
    | none =>
      simp only [Transformer.createMessageFields, hf]
      exact (ih pkg1 msg pfx (i + 1)).trans h1
    | some fl =>
      simp only [Transformer.createMessageFields, hf]
      exact (ih pkg1 { msg with fields := msg.fields ++ [fl] } pfx (i + 1)).trans h1

/-- The 1-based positions of the wrapped parameters the synthesized-message
loop keeps: one per representable type, numbered by its position in the
original parameter list; an unrepresentable type is skipped without a
field and without reserving its position. -/
def wrapKeptPos (t : Transformer) (i : Nat) : List SType → List Nat
  | [] => []
  | typ :: rest =>
    if isByteSlice typ || transformOk t typ then
      (i + 1) :: wrapKeptPos t (i + 1) rest
    else wrapKeptPos t (i + 1) rest

/-- The synthesized message's fields are exactly one per representable
type, in order, at the positions `wrapKeptPos` computes, named
`<pfx><position>` (snake-cased); unrepresentable types contribute
nothing. -/
theorem createMessageFields_spec (t : Transformer) :
    ∀ (types : List SType) (pkg : PbPackage) (msg : PbMessage) (pfx : String) (i : Nat),
      ((t.createMessageFields pkg msg pfx i types).2.2).fields.map (·.pos) =
          msg.fields.map (·.pos) ++ wrapKeptPos t i types ∧
      ((t.createMessageFields pkg msg pfx i types).2.2).fields.map (·.name) =
          msg.fields.map (·.name) ++ (wrapKeptPos t i types).map
            (fun p => toLowerSnakeCase (capitalize pfx ++ toString p)) ∧
      ((t.createMessageFields pkg msg pfx i types).2.2).name = msg.name := by
  intro types
  induction types with
  | nil =>
    intro pkg msg pfx i
    simp [Transformer.createMessageFields, wrapKeptPos]
  | cons typ rest ih =>
    intro pkg msg pfx i
    by_cases hkept : (isByteSlice typ || transformOk t typ) = true
    · have hok : fieldOk t ⟨[], capitalize pfx ++ toString (i + 1), typ⟩ = true := by
        simpa [fieldOk] using hkept
      obtain ⟨fl, hfl, hpos, hname⟩ := transformField_some t pkg msg
        ⟨[], capitalize pfx ++ toString (i + 1), typ⟩ (i + 1) hok
      rcases hf : t.transformField pkg msg
        ⟨[], capitalize pfx ++ toString (i + 1), typ⟩ (i + 1) with ⟨pkg1, w1, fo⟩
      rw [hf] at hfl
      simp only at hfl
      subst hfl
      have ihh := ih pkg1 { msg with fields := msg.fields ++ [fl] } pfx (i + 1)
      simp only [Transformer.createMessageFields, hf]
      refine ⟨?_, ?_, ihh.2.2⟩
      · rw [ihh.1]
        simp [wrapKeptPos, hkept, hpos]
      · rw [ihh.2.1]
        simp [wrapKeptPos, hkept, hname]
    · have hkf : (isByteSlice typ || transformOk t typ) = false := by simpa using hkept
      have hok : fieldOk t ⟨[], capitalize pfx ++ toString (i + 1), typ⟩ = false := by
        simpa [fieldOk] using hkf
      have hnone := transformField_none t pkg msg
        ⟨[], capitalize pfx ++ toString (i + 1), typ⟩ (i + 1) hok
      rcases hf : t.transformField pkg msg
        ⟨[], capitalize pfx ++ toString (i + 1), typ⟩ (i + 1) with ⟨pkg1, w1, fo⟩
      rw [hf] at hnone
      simp only at hnone
      subst hnone
      have ihh := ih pkg1 msg pfx (i + 1)
      simp only [Transformer.createMessageFields, hf]
      refine ⟨?_, ?_, ihh.2.2⟩
      · rw [ihh.1]
        simp [wrapKeptPos, hkf]
      · rw [ihh.2.1]
        simp [wrapKeptPos, hkf]

/-- When every type is representable, the kept positions are the full
range `i+1 .. i+n`. -/
theorem wrapKeptPos_full (t : Transformer) :
    ∀ (types : List SType) (i : Nat),
      (∀ typ ∈ types, (isByteSlice typ || transformOk t typ) = true) →
      wrapKeptPos t i types = (List.range types.length).map (fun j => i + j + 1) := by
  intro types
  induction types with
  | nil => intro i _; simp [wrapKeptPos]
  | cons typ rest ih =>
    intro i hk
    have h1 : (isByteSlice typ || transformOk t typ) = true :=
      hk typ (List.mem_cons_self _ _)
    simp only [wrapKeptPos, h1, if_true]
    rw [ih (i + 1) (fun ty hty => hk ty (List.mem_cons_of_mem _ hty))]
    rw [List.length_cons, List.range_succ_eq_map, List.map_cons, List.map_map]
    refine congrArg₂ _ (by simp) ?_
    apply List.map_congr_left
    intro j _
    simp only [Function.comp_apply]
    omega

/-- The synthesized-message field loop does not change the message name. -/
theorem createMessageFields_name (t : Transformer) :
    ∀ (types : List SType) (pkg : PbPackage) (msg : PbMessage) (pfx : String) (i : Nat),
      ((t.createMessageFields pkg msg pfx i types).2.2).name = msg.name := by
  intro types
  induction types with
  | nil => intro pkg msg pfx i; rfl
  | cons typ rest ih =>
    intro pkg msg pfx i
    rcases hf : t.transformField pkg msg
      ⟨[], capitalize pfx ++ toString (i + 1), typ⟩ (i + 1) with ⟨pkg1, w1, fo⟩
    cases fo with
    | none =>
      simp only [Transformer.createMessageFields, hf]
      exact ih pkg1 msg pfx (i + 1)
    | some fl =>
      simp only [Transformer.createMessageFields, hf]
      exact ih pkg1 { msg with fields := msg.fields ++ [fl] } pfx (i + 1)

/-- The Go wrapping condition of `transformTypeList`: more than one type,
or a single repeated type, or a single non-`Named` type. -/
def wrapNeeded : List SType → Bool
  | [typ] => typ.isRepeated || !isNamed typ
  | _ => true

/-- `transformTypeList` takes the wrapping branch exactly under
`wrapNeeded`. -/
theorem transformTypeList_wrap (t : Transformer) (pkg : PbPackage) (types : List SType)
    (names : List String) (name sfx pfx : String) (h : wrapNeeded types = true) :
    t.transformTypeList pkg types names name sfx pfx =
      t.wrapTypeList pkg types names name sfx pfx := by
  match types with
  | [] => rfl
  | [typ] =>
    simp only [wrapNeeded] at h
    simp [Transformer.transformTypeList, h]
  | a :: b :: rest => rfl

/-- C1 (amended): a single non-repeated `Named` parameter (or result) is
used directly as the RPC input/output and no message is synthesized; in
every other case — zero types, several types, a repeated type, a
non-`Named` type — a message named `<RpcName><sfx>` is synthesized and
appended, with one field per representable remaining parameter, in order,
named `<pfx><position>` at the parameter's 1-based position;
unrepresentable parameters are skipped silently (no field, no reserved
position), and when every parameter is representable the fields are the
full `<pfx>1..<pfx>N` at positions `1..N`; with no types at all the
synthesized message is empty.  Inputs use `"Request"`/`"arg"`, outputs
`"Response"`/`"result"`. -/
theorem rpc_io_wrapping :
    ∀ (t : Transformer) (pkg : PbPackage) (types : List SType) (names : List String)
      (name sfx pfx : String),
      t.transformInputTypes pkg types names name =
        t.transformTypeList pkg types names name "Request" "arg" ∧
      t.transformOutputTypes pkg types names name =
        t.transformTypeList pkg types names name "Response" "result" ∧
      (∀ typ, types = [typ] → typ.isRepeated = false → isNamed typ = true →
        (t.transformTypeList pkg types names name sfx pfx).2.2 =
          (t.transformType pkg emptyMessage emptyField typ).2.2.2 ∧
        ((t.transformTypeList pkg types names name sfx pfx).1).messages = pkg.messages) ∧
      (wrapNeeded types = true → names.contains (name ++ sfx) = false →
        ((t.transformTypeList pkg types names name sfx pfx).1).messages =
          pkg.messages ++ [(t.createMessageFromTypes pkg (name ++ sfx) types pfx).2.2] ∧
        (t.transformTypeList pkg types names name sfx pfx).2.2 =
          PbType.pbnamed (toProtobufPkg pkg.path) (name ++ sfx) true SType.snil ∧
        ((t.createMessageFromTypes pkg (name ++ sfx) types pfx).2.2).name = name ++ sfx ∧
        ((t.createMessageFromTypes pkg (name ++ sfx) types pfx).2.2).fields.map (·.pos) =
          wrapKeptPos t 0 types ∧
        ((t.createMessageFromTypes pkg (name ++ sfx) types pfx).2.2).fields.map (·.name) =
          (wrapKeptPos t 0 types).map
            (fun p => toLowerSnakeCase (capitalize pfx ++ toString p)) ∧
        ((∀ typ ∈ types, (isByteSlice typ || transformOk t typ) = true) →
          wrapKeptPos t 0 types = (List.range types.length).map (fun j => j + 1)) ∧
        (types = [] →
          ((t.createMessageFromTypes pkg (name ++ sfx) types pfx).2.2).fields = [])) := by
  intro t pkg types names name sfx pfx
  refine ⟨rfl, rfl, ?_, ?_⟩
  · intro typ hty hrep hnamed
    subst hty
    rcases hres : t.transformType pkg emptyMessage emptyField typ with ⟨p1, f1, w, ty⟩
    have hmsgs := transformType_messages t emptyMessage typ pkg emptyField
    rw [hres] at hmsgs
    simp only at hmsgs
    constructor
    · simp [Transformer.transformTypeList, hrep, hnamed, hres]
    · simp [Transformer.transformTypeList, hrep, hnamed, hres, hmsgs]
  · intro hwrap hcol
    rw [transformTypeList_wrap t pkg types names name sfx pfx hwrap]
    rcases hc : t.createMessageFromTypes pkg (name ++ sfx) types pfx with ⟨pkg1, w, m⟩
    have hc' : t.createMessageFields pkg
        { name := name ++ sfx, docs := [], reserved := [], options := [], fields := [] }
        pfx 0 types = (pkg1, w, m) := hc
    have hmsgs : pkg1.messages = pkg.messages := by
      have h0 := createMessageFields_messages t types pkg
        { name := name ++ sfx, docs := [], reserved := [], options := [], fields := [] }
        pfx 0
      rw [hc'] at h0
      exact h0
    have hspec := createMessageFields_spec t types pkg
      { name := name ++ sfx, docs := [], reserved := [], options := [], fields := [] }
      pfx 0
    rw [hc'] at hspec
    have hcol' : (name ++ sfx) ∉ names := by simpa using hcol
    refine ⟨?_, ?_, ?_, ?_, ?_, ?_, ?_⟩
    · simp [Transformer.wrapTypeList, hcol', hc, hmsgs]
    · simp [Transformer.wrapTypeList, hcol', hc]
    · exact hspec.2.2
    · have h1 := hspec.1
      simpa using h1
    · have h2 := hspec.2.1
      simpa using h2
    · intro hk
      rw [wrapKeptPos_full t types 0 hk]
      apply List.map_congr_left
      intro j _
      omega
    · intro hty
      subst hty
      have hnil : t.createMessageFields pkg
          { name := name ++ sfx, docs := [], reserved := [], options := [], fields := [] }
          pfx 0 [] =
          (pkg, ([] : List String),
            ({ name := name ++ sfx, docs := [], reserved := [], options := [],
               fields := [] } : PbMessage)) := rfl
      rw [hnil] at hc'
      simp only [Prod.mk.injEq] at hc'
      rw [show ((pkg1, w, m).2.2) = m from rfl, ← hc'.2.2]

/-- C1 witness: wrapping two basic parameters of `F` synthesizes a
`FRequest` message whose field positions and names follow `wrapKeptPos`,
which here — all parameters being representable — is the full `1..2`. -/
theorem rpc_io_wrapping_witness :
    (wrapNeeded [SType.basic false false "int", SType.basic false false "float64"] = true ∧
     ([] : List String).contains ("F" ++ "Request") = false ∧
     (∀ typ ∈ [SType.basic false false "int", SType.basic false false "float64"],
       (isByteSlice typ || transformOk (Transformer.mk [] [] []) typ) = true)) ∧
    (((Transformer.mk [] [] []).createMessageFromTypes
        { name := "foo", path := "foo", imports := [], options := [], messages := [],
          enums := [], rpcs := [] }
        ("F" ++ "Request")
        [SType.basic false false "int", SType.basic false false "float64"]
        "arg").2.2).fields.map (·.pos) =
      wrapKeptPos (Transformer.mk [] [] []) 0
        [SType.basic false false "int", SType.basic false false "float64"] ∧
    (((Transformer.mk [] [] []).createMessageFromTypes
        { name := "foo", path := "foo", imports := [], options := [], messages := [],
          enums := [], rpcs := [] }
        ("F" ++ "Request")
        [SType.basic false false "int", SType.basic false false "float64"]
        "arg").2.2).fields.map (·.name) =
      (wrapKeptPos (Transformer.mk [] [] []) 0
        [SType.basic false false "int", SType.basic false false "float64"]).map
        (fun p => toLowerSnakeCase (capitalize "arg" ++ toString p)) ∧
    wrapKeptPos (Transformer.mk [] [] []) 0
        [SType.basic false false "int", SType.basic false false "float64"] =
      (List.range 2).map (fun j => j + 1) :=
  ⟨⟨by decide, by decide, by decide⟩,
    ((rpc_io_wrapping (Transformer.mk [] [] [])
        { name := "foo", path := "foo", imports := [], options := [], messages := [],
          enums := [], rpcs := [] }
        [SType.basic false false "int", SType.basic false false "float64"]
        [] "F" "Request" "arg").2.2.2 (by decide) (by decide)).2.2.2.1,
    ((rpc_io_wrapping (Transformer.mk [] [] [])
        { name := "foo", path := "foo", imports := [], options := [], messages := [],
          enums := [], rpcs := [] }
        [SType.basic false false "int", SType.basic false false "float64"]
        [] "F" "Request" "arg").2.2.2 (by decide) (by decide)).2.2.2.2.1,
    ((rpc_io_wrapping (Transformer.mk [] [] [])
        { name := "foo", path := "foo", imports := [], options := [], messages := [],
          enums := [], rpcs := [] }
        [SType.basic false false "int", SType.basic false false "float64"]
        [] "F" "Request" "arg").2.2.2 (by decide) (by decide)).2.2.2.2.2.1 (by decide)⟩

/-- C1 counterexample to the original claim: wrapping the remaining
parameters of `F(x int, e error)` — after `removeLastError` is NOT applied
because this is the input side — needs a message (two types), yet the
synthesized `FRequest` holds only the single field `arg1`: the `error`
parameter has no protobuf representation and is silently skipped, with no
field and no reserved position, while the RPC is still generated with a
non-nil input type. -/
theorem unrepresentable_parameter_skipped :
    wrapNeeded [SType.basic false false "int",
      SType.named false false "" "error"] = true ∧
    [SType.basic false false "int", SType.named false false "" "error"].length = 2 ∧
    (((Transformer.mk [] [] []).transformTypeList
        { name := "foo", path := "foo", imports := [], options := [], messages := [],
          enums := [], rpcs := [] }
        [SType.basic false false "int", SType.named false false "" "error"]
        [] "F" "Request" "arg").1).messages.map
          (fun m => m.fields.map (·.name)) = [["arg1"]] ∧
    ((Transformer.mk [] [] []).transformTypeList
        { name := "foo", path := "foo", imports := [], options := [], messages := [],
          enums := [], rpcs := [] }
        [SType.basic false false "int", SType.named false false "" "error"]
        [] "F" "Request" "arg").2.2 ≠ PbType.pbnil := by
  refine ⟨by decide, by decide, by decide, ?_⟩
  decide

/-- C8: when wrapping is needed and the synthesized `<RpcName><sfx>` name
clashes with an existing message or enum name, `transformTypeList` warns
and returns nil with the package untouched (no message appended); any RPC
the transformer does emit has non-nil input and output, and a function
whose request name clashes is dropped entirely. -/
theorem name_collision_drops_rpc :
    ∀ (t : Transformer) (pkg : PbPackage) (types : List SType) (names : List String)
      (name sfx pfx : String),
      (wrapNeeded types = true → names.contains (name ++ sfx) = true →
        t.transformTypeList pkg types names name sfx pfx =
          (pkg, [warnNameCollision (name ++ sfx) name], PbType.pbnil)) ∧
      (∀ (f : SFunc) (rpc : RPC), (t.transformFunc pkg f names).2.2 = some rpc →
        rpc.input ≠ PbType.pbnil ∧ rpc.output ≠ PbType.pbnil) ∧
      (∀ (f : SFunc), f.receiver = none →
        wrapNeeded (removeFirstCtx f.input).1 = true →
        names.contains (f.name ++ "Request") = true →
        (t.transformFunc pkg f names).2.2 = none) := by
  intro t pkg types names name sfx pfx
  have hcollision : ∀ (types' : List SType) (name' sfx' pfx' : String),
      wrapNeeded types' = true → names.contains (name' ++ sfx') = true →
      t.transformTypeList pkg types' names name' sfx' pfx' =
        (pkg, [warnNameCollision (name' ++ sfx') name'], PbType.pbnil) := by
    intro types' name' sfx' pfx' hwrap hcol
    rw [transformTypeList_wrap t pkg types' names name' sfx' pfx' hwrap]
    have hmem : (name' ++ sfx') ∈ names := by simpa using hcol
    simp [Transformer.wrapTypeList, hmem]
  refine ⟨hcollision types name sfx pfx, ?_, ?_⟩
  · intro f rpc hsome
    cases hrecv : f.receiver with
    | none =>
      simp only [Transformer.transformFunc, hrecv] at hsome
      rcases hin : removeFirstCtx f.input with ⟨input, hasCtx⟩
      rcases hout : removeLastError f.output with ⟨output, hasError⟩
      rw [hin, hout] at hsome
      rcases hti : t.transformInputTypes pkg input names f.name with ⟨p1, w1, inT⟩
      rw [hti] at hsome
      rcases hto : t.transformOutputTypes p1 output names f.name with ⟨p2, w2, outT⟩
      rw [hto] at hsome
      by_cases hnil : inT = PbType.pbnil ∨ outT = PbType.pbnil
      · simp only [hnil, if_true] at hsome
        cases hsome
      · simp only [hnil, if_false] at hsome
        have := Option.some.inj hsome
        rw [← this]
        simp only [not_or] at hnil
        exact ⟨hnil.1, hnil.2⟩
    | some rt =>
      cases rt with
      | named rrep rnul rpath rname =>
        simp only [Transformer.transformFunc, hrecv] at hsome
        rcases hin : removeFirstCtx f.input with ⟨input, hasCtx⟩
        rcases hout : removeLastError f.output with ⟨output, hasError⟩
        rw [hin, hout] at hsome
        rcases hti : t.transformInputTypes pkg input names (rname ++ "_" ++ f.name)
          with ⟨p1, w1, inT⟩
        rw [hti] at hsome
        rcases hto : t.transformOutputTypes p1 output names (rname ++ "_" ++ f.name)
          with ⟨p2, w2, outT⟩
        rw [hto] at hsome
        by_cases hnil : inT = PbType.pbnil ∨ outT = PbType.pbnil
        · simp only [hnil, if_true] at hsome
          cases hsome
        · simp only [hnil, if_false] at hsome
          have := Option.some.inj hsome
          rw [← this]
          simp only [not_or] at hnil
          exact ⟨hnil.1, hnil.2⟩
      | snil => simp [Transformer.transformFunc, hrecv] at hsome
      | basic brep bnul bname => simp [Transformer.transformFunc, hrecv] at hsome
      | salias a u => simp [Transformer.transformFunc, hrecv] at hsome
      | smap mrep mnul k v => simp [Transformer.transformFunc, hrecv] at hsome
  · intro f hrecv hwrap hcol
    simp only [Transformer.transformFunc, hrecv]
    rcases hin : removeFirstCtx f.input with ⟨input, hasCtx⟩
    rcases hout : removeLastError f.output with ⟨output, hasError⟩
    have hinput : t.transformInputTypes pkg input names f.name =
        (pkg, [warnNameCollision (f.name ++ "Request") f.name], PbType.pbnil) := by
      rw [Transformer.transformInputTypes]
      exact hcollision input f.name "Request" "arg" (by rw [hin] at hwrap; exact hwrap) hcol
    rw [hinput]
    rcases hto : t.transformOutputTypes pkg output names f.name with ⟨p2, w2, outT⟩
    simp

/-- C8 witness: the collision branch at a concrete package where
`FRequest` is already taken. -/
theorem name_collision_drops_rpc_witness :
    (wrapNeeded ([] : List SType) = true ∧
      (["FRequest"] : List String).contains ("F" ++ "Request") = true) ∧
    (Transformer.mk [] [] []).transformTypeList
      { name := "foo", path := "foo", imports := [], options := [], messages := [],
        enums := [], rpcs := [] }
      [] ["FRequest"] "F" "Request" "arg" =
      ({ name := "foo", path := "foo", imports := [], options := [], messages := [],
         enums := [], rpcs := [] },
        [warnNameCollision ("F" ++ "Request") "F"], PbType.pbnil) :=
  ⟨⟨by decide, by decide⟩,
    (name_collision_drops_rpc (Transformer.mk [] [] [])
      { name := "foo", path := "foo", imports := [], options := [], messages := [],
        enums := [], rpcs := [] }
      [] ["FRequest"] "F" "Request" "arg").1 (by decide) (by decide)⟩

end Claims
